import Mathlib

/-!
# Verification of the HWP binary post-processing engine

A shallow embedding, in Lean 4, of the binary rewriting core of the
hwp-exam-editor repository (`src/core/formatter.py` and
`src/core/hwp_controller.py`), together with proofs about the behaviour
that the natural-language specification describes.

Modelling conventions:
* Bytes are `Nat` values; byte buffers are `List Nat`.  Writes into a
  byte buffer store the value modulo 256, matching the range constraint
  of a Python `bytearray` slot.
* Little-endian `uint32` fields are read with `readU32le` and written
  with `u32le`, matching `struct.unpack_from("<I", ...)` and
  `struct.pack_into("<I", ...)`.
* Tag-framed record streams (DocInfo, BodyText/Section*) are modelled at
  the record level: a stream is a `List HRec` where each record carries
  its tag id and payload bytes.  Every walker in the source parses the
  framing with the identical loop (header uint32, 10-bit tag, 12-bit
  size with the 0xFFF escape, stop on truncation), so all of them see
  the same record sequence for a given buffer; the record list is that
  shared parse.  Payload sizes are payload lengths.
* Text decoded from PARA_TEXT records is a `List Nat` of UTF-16 code
  units (codes below 32 are inline-object markers and are skipped with
  their trailing bytes, exactly as `_collect_para_texts` does).
* The DEFLATE compressor is abstract: `_recompress_to_exact_size` is
  modelled as a function of an arbitrary `compress : Nat → List Nat →
  List Nat` (level, data ↦ compressed bytes), since none of the claimed
  properties depend on the compressor beyond the length of its output.
-/

namespace HwpExam

/-- Little-endian uint32 read of the first four bytes of a buffer,
mirroring `struct.unpack_from("<I", b, off)` applied to `b.drop off`.
Missing bytes read as 0 (the source only reads in-bounds). -/
def readU32le (b : List Nat) : Nat :=
  b.headD 0 + 256 * (b.drop 1).headD 0 + 65536 * (b.drop 2).headD 0 +
    16777216 * (b.drop 3).headD 0

/-- Little-endian uint32 byte encoding, mirroring `struct.pack_into("<I", ...)`. -/
def u32le (v : Nat) : List Nat :=
  [v % 256, v / 256 % 256, v / 65536 % 256, v / 16777216 % 256]

/-- Python `bytes.ljust(target, b"\x00")`: right-pad with null bytes up
to `target` (no-op when already at least that long). -/
def ljustZero (b : List Nat) (target : Nat) : List Nat :=
  b ++ List.replicate (target - b.length) 0

/- ### `_recompress_to_exact_size` (src/core/formatter.py lines 973-990)

`compress level data` stands for
`zlib.compressobj(level=level, wbits=-15)` run over `data`. -/

/-- The `for level in (9, 6, 3, 1)` loop of `_recompress_to_exact_size`:
return the first compression result that fits, null-padded to the
target size. -/
def recompressLoop (compress : Nat → List Nat → List Nat) (data : List Nat)
    (targetSize : Nat) : List Nat → Option (List Nat)
  | [] => none
  | level :: rest =>
    let compressed := compress level data
    if compressed.length ≤ targetSize then some (ljustZero compressed targetSize)
    else recompressLoop compress data targetSize rest

/-- `_recompress_to_exact_size(data, target_size)`: try DEFLATE levels
9, 6, 3, 1; fall back to level 0 (stored); fail with `none` if even the
stored form does not fit. -/
def recompressToExactSize (compress : Nat → List Nat → List Nat)
    (data : List Nat) (targetSize : Nat) : Option (List Nat) :=
  match recompressLoop compress data targetSize [9, 6, 3, 1] with
  | some result => some result
  | none =>
    let compressed := compress 0 data
    if compressed.length ≤ targetSize then some (ljustZero compressed targetSize)
    else none

/-- Spec-side rendering of the recompression contract, written from the
spec sentence: attempt levels 9, 6, 3, 1, then 0, in that order; use the
first result whose length is ≤ L, right-padded with null bytes to L;
otherwise fail. -/
def specFirstFitRecompress (compress : Nat → List Nat → List Nat)
    (data : List Nat) (targetSize : Nat) : Option (List Nat) :=
  (([9, 6, 3, 1, 0].find? fun level => (compress level data).length ≤ targetSize).map
    fun level => ljustZero (compress level data) targetSize)

theorem length_ljustZero (b : List Nat) (t : Nat) (h : b.length ≤ t) :
    (ljustZero b t).length = t := by
  simp [ljustZero]
  omega

theorem recompressLoop_eq_find (compress : Nat → List Nat → List Nat)
    (data : List Nat) (t : Nat) (levels : List Nat) :
    recompressLoop compress data t levels =
      ((levels.find? fun level => (compress level data).length ≤ t).map
        fun level => ljustZero (compress level data) t) := by
  induction levels with
  | nil => rfl
  | cons l rest ih =>
    by_cases h : (compress l data).length ≤ t
    · simp [recompressLoop, List.find?, h]
    · simp [recompressLoop, List.find?, h, ih]

/-- C1. `_recompress_to_exact_size` equals the spec-side first-fit over
levels 9, 6, 3, 1, 0, and it never returns a byte string whose length
differs from the target: the result is `none` or has length exactly
`targetSize`. -/
theorem recompress_first_fit_and_exact_size
    (compress : Nat → List Nat → List Nat) (data : List Nat) (targetSize : Nat) :
    recompressToExactSize compress data targetSize =
      specFirstFitRecompress compress data targetSize ∧
    (recompressToExactSize compress data targetSize = none ∨
      ∃ result, recompressToExactSize compress data targetSize = some result ∧
        result.length = targetSize) := by
  constructor
  · unfold recompressToExactSize specFirstFitRecompress
    rw [recompressLoop_eq_find]
    have expand : ([9, 6, 3, 1, 0] : List Nat) = [9, 6, 3, 1] ++ [0] := rfl
    rw [expand, List.find?_append]
    cases hfind : ([9, 6, 3, 1].find? fun level =>
        decide ((compress level data).length ≤ targetSize)) with
    | some l => simp [hfind]
    | none =>
      by_cases h : (compress 0 data).length ≤ targetSize
      · simp [hfind, List.find?, h]
      · simp [hfind, List.find?, h]
  · unfold recompressToExactSize
    cases hloop : recompressLoop compress data targetSize [9, 6, 3, 1] with
    | some result =>
      right
      refine ⟨result, rfl, ?_⟩
      rw [recompressLoop_eq_find] at hloop
      rcases Option.map_eq_some'.mp hloop with ⟨l, hl, hres⟩
      have := List.find?_some hl
      simp at this
      rw [← hres]
      exact length_ljustZero _ _ this
    | none =>
      by_cases h : (compress 0 data).length ≤ targetSize
      · right
        exact ⟨_, by simp [h], length_ljustZero _ _ h⟩
      · left
        simp [h]

/- ### PARA_CHAR_SHAPE run rewriting
(`_rewrite_para_char_shape_runs`, src/core/formatter.py lines 1202-1253) -/

/-- The lexicographic key comparison behind
`min(counts.keys(), key=lambda cid: (-counts[cid], first_pos[cid]))`:
`a` beats `b` when it occurs strictly more often in `l`, or equally
often with an earlier first occurrence. -/
def keyBetter (l : List Nat) (a b : Nat) : Prop :=
  l.count b < l.count a ∨ (l.count a = l.count b ∧ l.indexOf a < l.indexOf b)

instance (l : List Nat) (a b : Nat) : Decidable (keyBetter l a b) := by
  unfold keyBetter; infer_instance

/-- The base (majority) run id of a list of char-shape run ids: highest
occurrence count, ties broken by earliest first occurrence.  Mirrors the
`min(counts.keys(), key=...)` selection: Python iterates the counts dict
in first-occurrence order and keeps the entry with the strictly smallest
key, which is the same as a fold over the run ids keeping the entry with
the strictly better key (repeated ids share the identical key and never
displace the incumbent). -/
def pickBase (runIds : List Nat) : Nat :=
  match runIds with
  | [] => 0
  | x :: _ =>
    runIds.foldl (fun best cid => if keyBetter runIds cid best then cid else best) x

theorem keyBetter_trans {l : List Nat} {a b c : Nat}
    (h1 : keyBetter l a b) (h2 : keyBetter l b c) : keyBetter l a c := by
  unfold keyBetter at *
  omega

theorem keyBetter_asymm {l : List Nat} {a b : Nat}
    (h1 : keyBetter l a b) (h2 : keyBetter l b a) : False := by
  unfold keyBetter at *
  omega

theorem keyBetter_total {l : List Nat} {a b : Nat} (ha : a ∈ l) (hb : b ∈ l)
    (hne : a ≠ b) (h : ¬keyBetter l a b) : keyBetter l b a := by
  unfold keyBetter at *
  have hidx : l.indexOf a ≠ l.indexOf b := fun he =>
    hne ((List.indexOf_inj ha hb).mp he)
  omega

theorem pickBase_fold_spec (l : List Nat) :
    ∀ (rest : List Nat) (best : Nat), (∀ d ∈ rest, d ∈ l) → best ∈ l →
      (∀ d, d = best ∨ d ∈ rest →
        d ≠ rest.foldl (fun b cid => if keyBetter l cid b then cid else b) best →
        keyBetter l (rest.foldl (fun b cid => if keyBetter l cid b then cid else b) best) d) ∧
      rest.foldl (fun b cid => if keyBetter l cid b then cid else b) best ∈ l := by
  intro rest
  induction rest with
  | nil =>
    intro best _ hbest
    refine ⟨?_, hbest⟩
    intro d hd hne
    rcases hd with rfl | h
    · exact absurd rfl hne
    · exact absurd h (List.not_mem_nil d)
  | cons c cs ih =>
    intro best hsub hbest
    simp only [List.foldl_cons]
    by_cases hc : keyBetter l c best
    · have hcl : c ∈ l := hsub c (List.mem_cons_self c cs)
      have step := ih c (fun d hd => hsub d (List.mem_cons_of_mem c hd)) hcl
      rw [if_pos hc]
      refine ⟨?_, step.2⟩
      intro d hd hne
      rcases hd with rfl | hd
      · -- d = best: the incumbent loses to c, which the result is or beats
        by_cases hres : c = cs.foldl (fun b cid => if keyBetter l cid b then cid else b) c
        · rw [← hres]; exact hc
        · exact keyBetter_trans (step.1 c (Or.inl rfl) hres) hc
      · rcases List.mem_cons.mp hd with rfl | hd
        · by_cases hres : d = cs.foldl (fun b cid => if keyBetter l cid b then cid else b) d
          · exact absurd hres hne
          · exact step.1 d (Or.inl rfl) hres
        · exact step.1 d (Or.inr hd) hne
    · have step := ih best (fun d hd => hsub d (List.mem_cons_of_mem c hd)) hbest
      rw [if_neg hc]
      refine ⟨?_, step.2⟩
      intro d hd hne
      rcases hd with rfl | hd
      · exact step.1 d (Or.inl rfl) hne
      · rcases List.mem_cons.mp hd with rfl | hd
        · -- d = c lost against best; the result is best or beats best
          have hdl : d ∈ l := hsub d (List.mem_cons_self d cs)
          by_cases hdb : d = best
          · subst hdb
            exact step.1 d (Or.inl rfl) hne
          · have hbd : keyBetter l best d := keyBetter_total hdl hbest hdb hc
            by_cases hres : best = cs.foldl (fun b cid => if keyBetter l cid b then cid else b) best
            · rw [← hres]; exact hbd
            · exact keyBetter_trans (step.1 best (Or.inl rfl) hres) hbd
        · exact step.1 d (Or.inr hd) hne

/-- `pickBase` returns a member of the list and its key (occurrence
count, then first index) beats that of every other member. -/
theorem pickBase_spec (l : List Nat) (hl : l ≠ []) :
    pickBase l ∈ l ∧ ∀ d ∈ l, d ≠ pickBase l → keyBetter l (pickBase l) d := by
  match l, hl with
  | x :: xs, _ =>
    have main := pickBase_fold_spec (x :: xs) (x :: xs) x
      (fun d hd => hd) (List.mem_cons_self x xs)
    refine ⟨main.2, fun d hd hne => main.1 d (Or.inr hd) hne⟩

/-- The element whose key beats every other member is the one
`pickBase` returns. -/
theorem pickBase_unique (l : List Nat) (b : Nat) (hb : b ∈ l)
    (hbest : ∀ d ∈ l, d ≠ b → keyBetter l b d) : pickBase l = b := by
  have hl : l ≠ [] := by rintro rfl; exact absurd hb (List.not_mem_nil b)
  obtain ⟨hmem, hspec⟩ := pickBase_spec l hl
  by_contra hne
  exact keyBetter_asymm (hbest _ hmem hne) (hspec b hb (Ne.symm hne))

/-- Split a payload into its 8-byte `{startPos: uint32, charShapeId: uint32}`
run entries (a trailing fragment shorter than 8 bytes becomes a short
chunk; callers only use this when the length is a multiple of 8). -/
def chunksOf8 : List Nat → List (List Nat)
  | [] => []
  | a :: b :: c :: d :: e :: f :: g :: h :: rest =>
    [a, b, c, d, e, f, g, h] :: chunksOf8 rest
  | l => [l]

theorem flatten_chunksOf8 (p : List Nat) : (chunksOf8 p).flatten = p := by
  induction p using chunksOf8.induct <;> simp_all [chunksOf8]

theorem short_of_not_eight (x : List Nat)
    (hne : ∀ (a b c d e f g h : Nat) (rest : List Nat),
      x = a :: b :: c :: d :: e :: f :: g :: h :: rest → False) :
    x.length < 8 := by
  by_contra hlen
  push_neg at hlen
  rcases x with _ | ⟨a, x⟩
  · simp at hlen
  rcases x with _ | ⟨b, x⟩
  · simp at hlen
  rcases x with _ | ⟨c, x⟩
  · simp at hlen
  rcases x with _ | ⟨d, x⟩
  · simp at hlen
  rcases x with _ | ⟨e, x⟩
  · simp at hlen
  rcases x with _ | ⟨f, x⟩
  · simp at hlen
  rcases x with _ | ⟨g, x⟩
  · simp at hlen
  rcases x with _ | ⟨h, x⟩
  · simp at hlen
  exact hne a b c d e f g h x rfl

theorem chunksOf8_count (p : List Nat) (h8 : p.length % 8 = 0) :
    (chunksOf8 p).length = p.length / 8 := by
  induction p using chunksOf8.induct with
  | case1 => rw [chunksOf8]; rfl
  | case2 a b c d e f g h rest ih =>
    rw [chunksOf8]
    simp only [List.length_cons] at h8 ⊢
    rw [ih (by omega)]
    omega
  | case3 x hne1 hne2 =>
    have hx : x.length < 8 := short_of_not_eight x hne2
    have : x.length = 0 := by omega
    exact absurd (List.length_eq_zero.mp this) fun he => hne1 he

theorem chunksOf8_length_mem (p : List Nat) (h8 : p.length % 8 = 0) :
    ∀ c ∈ chunksOf8 p, c.length = 8 := by
  induction p using chunksOf8.induct with
  | case1 => intro x hx; simp [chunksOf8] at hx
  | case2 a b c d e f g h rest ih =>
    intro x hx
    rw [chunksOf8] at hx
    rcases List.mem_cons.mp hx with rfl | hx
    · rfl
    · refine ih ?_ x hx
      simp only [List.length_cons] at h8
      omega
  | case3 x hne1 hne2 =>
    intro c hc
    have hx : x.length < 8 := short_of_not_eight x hne2
    have : x.length = 0 := by omega
    exact absurd (List.length_eq_zero.mp this) fun he => hne1 he

/-- The char-shape id of one 8-byte run entry (uint32 at entry offset 4). -/
def runIdOf (chunk : List Nat) : Nat := readU32le (chunk.drop 4)

/-- `_rewrite_para_char_shape_runs(buffer, data_start, payload_size,
target_char_id)`, restricted to the payload bytes it touches.  Returns
the rewritten payload and the changed flag.  A payload that is not a
positive multiple of 8 bytes has `run_count == 0` and is untouched.
With one run the id is forced to the target when it differs; with
several runs only the runs carrying the majority (base) id are forced
to the target, all other run entries are left byte-for-byte intact. -/
def rewriteParaCharShapeRuns (payload : List Nat) (targetCharId : Nat) :
    List Nat × Bool :=
  if payload.length < 8 ∨ payload.length % 8 ≠ 0 then (payload, false)
  else
    let chunks := chunksOf8 payload
    let runIds := chunks.map runIdOf
    if chunks.length = 1 then
      if runIdOf payload ≠ targetCharId then
        (payload.take 4 ++ u32le targetCharId, true)
      else (payload, false)
    else
      let base := pickBase runIds
      let newChunks := chunks.map fun c =>
        if runIdOf c = base ∧ runIdOf c ≠ targetCharId then
          c.take 4 ++ u32le targetCharId
        else c
      (newChunks.flatten,
       chunks.any fun c => decide (runIdOf c = base ∧ runIdOf c ≠ targetCharId))

theorem slice_join_of_uniform (cs : List (List Nat)) (h : ∀ c ∈ cs, c.length = 8) :
    ∀ i, i < cs.length →
      ((cs.flatten.drop (8 * i)).take 8) = cs.getD i [] := by
  induction cs with
  | nil => intro i hi; exact absurd hi (by simp)
  | cons c cs ih =>
    intro i hi
    have hc : c.length = 8 := h c (List.mem_cons_self c cs)
    cases i with
    | zero =>
      simp only [List.flatten_cons, Nat.mul_zero, List.drop_zero, List.getD_cons_zero]
      exact List.take_left' hc
    | succ j =>
      simp only [List.flatten_cons, List.getD_cons_succ]
      have heq : 8 * (j + 1) = c.length + 8 * j := by omega
      rw [heq, List.drop_append]
      exact ih (fun d hd => h d (List.mem_cons_of_mem c hd)) j
        (by simpa using Nat.lt_of_succ_lt_succ hi)

/-- The run entry (bytes `8*i .. 8*i+8`) at index `i` of a
PARA_CHAR_SHAPE payload. -/
def runSlice (p : List Nat) (i : Nat) : List Nat := (p.drop (8 * i)).take 8

/-- The char-shape ids of all run entries of a PARA_CHAR_SHAPE payload,
as read by the `for off in range(4, payload_size, 8)` loop. -/
def runIds (p : List Nat) : List Nat := (chunksOf8 p).map runIdOf

theorem flatten_length_uniform (cs : List (List Nat)) (h : ∀ c ∈ cs, c.length = 8) :
    cs.flatten.length = 8 * cs.length := by
  induction cs with
  | nil => simp
  | cons c cs ih =>
    simp only [List.flatten_cons, List.length_append, List.length_cons,
      h c (List.mem_cons_self c cs), ih (fun d hd => h d (List.mem_cons_of_mem c hd))]
    ring

theorem getD_map_lt {α β : Type} (f : α → β) :
    ∀ (l : List α) (i : Nat), i < l.length → ∀ (d : α) (d2 : β),
      (l.map f).getD i d2 = f (l.getD i d) := by
  intro l
  induction l with
  | nil => intro i hi; simp at hi
  | cons a l ih =>
    intro i hi d d2
    cases i with
    | zero => simp
    | succ j => simpa using ih j (by simpa using Nat.lt_of_succ_lt_succ hi) d d2

/-- C2. `_rewrite_para_char_shape_runs` on a payload of `n` 8-byte runs:
with a single run the id is forced to the target when it differs; with
several runs the base id has the highest occurrence count (ties broken
by earliest first occurrence index), exactly the base-id runs are set to
the target char-shape id, and every run entry whose id differs from the
base id is left byte-for-byte unchanged.  The payload length is always
preserved.  As a closed instance, runs `[100, 200, 100]` rewritten with
target `300` become `[300, 200, 300]`. -/
theorem para_char_shape_rewrite_majority
    (payload : List Nat) (target : Nat) (n : Nat)
    (hlen : payload.length = 8 * n) (hn : 1 ≤ n) :
    rewriteParaCharShapeRuns
        (u32le 0 ++ u32le 100 ++ u32le 8 ++ u32le 200 ++ u32le 16 ++ u32le 100) 300 =
      (u32le 0 ++ u32le 300 ++ u32le 8 ++ u32le 200 ++ u32le 16 ++ u32le 300, true) ∧
    (rewriteParaCharShapeRuns payload target).1.length = payload.length ∧
    (n = 1 →
      (runIdOf payload ≠ target →
        rewriteParaCharShapeRuns payload target =
          (payload.take 4 ++ u32le target, true)) ∧
      (runIdOf payload = target →
        rewriteParaCharShapeRuns payload target = (payload, false))) ∧
    (2 ≤ n →
      (pickBase (runIds payload) ∈ runIds payload ∧
        ∀ d ∈ runIds payload,
          (runIds payload).count d < (runIds payload).count (pickBase (runIds payload)) ∨
            ((runIds payload).count d = (runIds payload).count (pickBase (runIds payload)) ∧
              (runIds payload).indexOf (pickBase (runIds payload)) ≤
                (runIds payload).indexOf d)) ∧
      ∀ i, i < n →
        (runIdOf (runSlice payload i) ≠ pickBase (runIds payload) →
          runSlice (rewriteParaCharShapeRuns payload target).1 i = runSlice payload i) ∧
        (runIdOf (runSlice payload i) = pickBase (runIds payload) →
          runIdOf (runSlice payload i) ≠ target →
          runSlice (rewriteParaCharShapeRuns payload target).1 i =
            (runSlice payload i).take 4 ++ u32le target) ∧
        (runIdOf (runSlice payload i) = pickBase (runIds payload) →
          runIdOf (runSlice payload i) = target →
          runSlice (rewriteParaCharShapeRuns payload target).1 i = runSlice payload i)) := by
  have hmod : payload.length % 8 = 0 := by omega
  have hcond : ¬(payload.length < 8 ∨ payload.length % 8 ≠ 0) := by
    push_neg
    exact ⟨by omega, hmod⟩
  have hchunks : (chunksOf8 payload).length = n := by
    rw [chunksOf8_count payload hmod, hlen]
    omega
  have hmem8 := chunksOf8_length_mem payload hmod
  refine ⟨by decide, ?_, ?_, ?_⟩
  · -- length preservation
    unfold rewriteParaCharShapeRuns
    rw [if_neg hcond]
    simp only []
    by_cases h1 : (chunksOf8 payload).length = 1
    · rw [if_pos h1]
      by_cases hid : runIdOf payload ≠ target
      · rw [if_pos hid]
        simp [u32le, List.length_take]
        omega
      · rw [if_neg hid]
    · rw [if_neg h1]
      have huni : ∀ c ∈ (chunksOf8 payload).map fun c =>
          if runIdOf c = pickBase ((chunksOf8 payload).map runIdOf) ∧ runIdOf c ≠ target then
            c.take 4 ++ u32le target
          else c, c.length = 8 := by
        intro c hc
        rcases List.mem_map.mp hc with ⟨c0, hc0, rfl⟩
        have h8 := hmem8 c0 hc0
        split
        · simp [u32le, List.length_take]; omega
        · exact h8
      rw [flatten_length_uniform _ huni]
      simp only [List.length_map, hchunks, hlen]
  · -- single run
    intro h1
    subst h1
    have hone : (chunksOf8 payload).length = 1 := hchunks
    constructor
    · intro hid
      unfold rewriteParaCharShapeRuns
      rw [if_neg hcond]
      simp only []
      rw [if_pos hone, if_pos hid]
    · intro hid
      unfold rewriteParaCharShapeRuns
      rw [if_neg hcond]
      simp only []
      rw [if_pos hone, if_neg (by simpa using hid)]
  · -- multiple runs
    intro h2
    have hne1 : (chunksOf8 payload).length ≠ 1 := by omega
    have hids_ne : runIds payload ≠ [] := by
      unfold runIds
      intro h
      have := congrArg List.length h
      simp [hchunks] at this
      omega
    obtain ⟨hbmem, hbspec⟩ := pickBase_spec (runIds payload) hids_ne
    refine ⟨⟨hbmem, ?_⟩, ?_⟩
    · intro d hd
      by_cases hdb : d = pickBase (runIds payload)
      · subst hdb
        right
        exact ⟨rfl, le_refl _⟩
      · rcases hbspec d hd hdb with h | ⟨h1, h2⟩
        · left; exact h
        · right; exact ⟨h1.symm, le_of_lt h2⟩
    · intro i hi
      -- identify the output slice with the mapped chunk
      have hslice_in : runSlice payload i = (chunksOf8 payload).getD i [] := by
        have := slice_join_of_uniform (chunksOf8 payload) hmem8 i (by omega)
        rw [flatten_chunksOf8] at this
        exact this
      set f : List Nat → List Nat := fun c =>
        if runIdOf c = pickBase ((chunksOf8 payload).map runIdOf) ∧ runIdOf c ≠ target then
          c.take 4 ++ u32le target
        else c with hf
      have hout : (rewriteParaCharShapeRuns payload target).1 =
          ((chunksOf8 payload).map f).flatten := by
        unfold rewriteParaCharShapeRuns
        rw [if_neg hcond]
        simp only []
        rw [if_neg hne1]
      have huni : ∀ c ∈ (chunksOf8 payload).map f, c.length = 8 := by
        intro c hc
        rcases List.mem_map.mp hc with ⟨c0, hc0, rfl⟩
        have h8 := hmem8 c0 hc0
        simp only [hf]
        split
        · simp [u32le, List.length_take]; omega
        · exact h8
      have hslice_out : runSlice (rewriteParaCharShapeRuns payload target).1 i =
          f ((chunksOf8 payload).getD i []) := by
        rw [hout]
        have := slice_join_of_uniform ((chunksOf8 payload).map f) huni i
          (by simp [hchunks]; omega)
        unfold runSlice
        rw [this, getD_map_lt f _ i (by omega) [] []]
      have hids_eq : runIds payload = (chunksOf8 payload).map runIdOf := rfl
      refine ⟨?_, ?_, ?_⟩
      · intro hidne
        rw [hslice_out, ← hslice_in, hf]
        simp only []
        rw [if_neg]
        intro ⟨ha, _⟩
        exact hidne (by rw [← hids_eq] at ha; exact ha)
      · intro hideq hidnet
        rw [hslice_out, ← hslice_in, hf]
        simp only []
        rw [if_pos ⟨by rw [← hids_eq]; exact hideq, hidnet⟩]
      · intro hideq hidet
        rw [hslice_out, ← hslice_in, hf]
        simp only []
        rw [if_neg]
        intro ⟨_, hb⟩
        exact hb hidet

/-- Witness for C2 at the spec's own example: three runs `[100, 200, 100]`
with target `300`; the middle (non-base) run entry is byte-for-byte
unchanged. -/
theorem para_char_shape_rewrite_majority_witness :
    (u32le 0 ++ u32le 100 ++ u32le 8 ++ u32le 200 ++ u32le 16 ++ u32le 100).length = 8 * 3 ∧
    runSlice
        (rewriteParaCharShapeRuns
          (u32le 0 ++ u32le 100 ++ u32le 8 ++ u32le 200 ++ u32le 16 ++ u32le 100) 300).1 1 =
      runSlice (u32le 0 ++ u32le 100 ++ u32le 8 ++ u32le 200 ++ u32le 16 ++ u32le 100) 1 :=
  ⟨by decide,
   (((para_char_shape_rewrite_majority _ 300 3 (by decide) (by decide)).2.2.2
      (by decide)).2 1 (by decide)).1 (by decide)⟩

/- ### Paragraph classification
(`_classify_paragraph_style` and `_QUESTION_NUMBER_RE`,
src/core/formatter.py lines 539 and 1190-1200)

Text is a list of Unicode code points.  Python `str.strip()` strips the
Unicode whitespace class; the predicate below enumerates it.  The regex
`\d` is modelled as the ASCII decimal digits (the documents the engine
handles use ASCII question numbers). -/

/-- Code points treated as whitespace by Python `str.strip()` / regex `\s`. -/
def isPySpace (c : Nat) : Bool :=
  c == 9 || c == 10 || c == 11 || c == 12 || c == 13 ||
  c == 28 || c == 29 || c == 30 || c == 31 || c == 32 ||
  c == 133 || c == 160 || c == 5760 ||
  (8192 ≤ c && c ≤ 8202) || c == 8232 || c == 8233 || c == 8239 ||
  c == 8287 || c == 12288

/-- ASCII decimal digit codes (regex `\d`). -/
def isDigitCode (c : Nat) : Bool := 48 ≤ c && c ≤ 57

/-- Python `str.strip()`: drop whitespace from both ends. -/
def pyStrip (l : List Nat) : List Nat :=
  ((l.dropWhile isPySpace).reverse.dropWhile isPySpace).reverse

/-- The zero-width/BOM noise characters stripped by
`lstrip("﻿​⁠\xa0")`: BOM, zero-width space, word joiner,
no-break space. -/
def isNoiseChar (c : Nat) : Bool :=
  c == 65279 || c == 8203 || c == 8288 || c == 160

/-- Deterministic matcher for the anchored regex
`^(?:문\s*)?\d{1,3}\s*[\.\)]\s*` (code 47928 is the literal marker word
`문`).  Backtracking collapses: if the string starts with the marker the
optional group must be taken (otherwise `\d` immediately fails on the
marker), and only the full leading digit run can satisfy `\d{1,3}`
followed by `\s*[\.\)]` (a shorter take leaves a digit where `[\.\)]`
must match). -/
def questionNumberBody (t : List Nat) : Bool :=
  let ds := t.takeWhile isDigitCode
  let rest := (t.dropWhile isDigitCode).dropWhile isPySpace
  decide (1 ≤ ds.length ∧ ds.length ≤ 3) &&
    (rest.headD 0 == 46 || rest.headD 0 == 41)

def questionNumberMatch (s : List Nat) : Bool :=
  if s.headD 0 == 47928 then questionNumberBody ((s.drop 1).dropWhile isPySpace)
  else questionNumberBody s

/-- `_classify_paragraph_style(text, question_idx, passage_idx)`:
strip, return 0 for empty, drop leading noise characters, match the
question-number prefix for the question index, default to the passage
index. -/
def classifyParagraphStyle (text : List Nat) (questionIdx passageIdx : Nat) : Nat :=
  let stripped := pyStrip text
  if stripped = [] then 0
  else
    let candidate := stripped.dropWhile isNoiseChar
    if questionNumberMatch candidate then questionIdx else passageIdx

/-- Spec-side, declarative reading of the question-number prefix: an
optional literal marker word, then 1-3 digits, then optional spaces and
a `.` or `)`. -/
def QuestionNumberPrefix (s : List Nat) : Prop :=
  ∃ (marker sp1 ds sp2 : List Nat) (pc : Nat) (rest : List Nat),
    s = marker ++ (sp1 ++ (ds ++ (sp2 ++ pc :: rest))) ∧
    ((marker = [] ∧ sp1 = []) ∨ marker = [47928]) ∧
    (∀ c ∈ sp1, isPySpace c = true) ∧
    (∀ c ∈ ds, isDigitCode c = true) ∧
    1 ≤ ds.length ∧ ds.length ≤ 3 ∧
    (∀ c ∈ sp2, isPySpace c = true) ∧
    (pc = 46 ∨ pc = 41)

theorem takeWhile_append_all {p : Nat → Bool} :
    ∀ (l1 l2 : List Nat), (∀ c ∈ l1, p c = true) →
      (l1 ++ l2).takeWhile p = l1 ++ l2.takeWhile p := by
  intro l1
  induction l1 with
  | nil => intro l2 _; simp
  | cons a l1 ih =>
    intro l2 h
    simp [List.takeWhile_cons, h a (List.mem_cons_self a l1),
      ih l2 (fun c hc => h c (List.mem_cons_of_mem a hc))]

theorem dropWhile_append_all {p : Nat → Bool} :
    ∀ (l1 l2 : List Nat), (∀ c ∈ l1, p c = true) →
      (l1 ++ l2).dropWhile p = l2.dropWhile p := by
  intro l1
  induction l1 with
  | nil => intro l2 _; simp
  | cons a l1 ih =>
    intro l2 h
    simp [List.dropWhile_cons, h a (List.mem_cons_self a l1),
      ih l2 (fun c hc => h c (List.mem_cons_of_mem a hc))]

theorem not_digit_of_space {c : Nat} (h : isPySpace c = true) : isDigitCode c = false := by
  unfold isPySpace at h
  unfold isDigitCode
  simp only [Bool.or_eq_true, beq_iff_eq, Bool.and_eq_true, decide_eq_true_eq] at h
  simp only [Bool.and_eq_false_iff, decide_eq_false_iff_not]
  omega

theorem not_space_of_punct {c : Nat} (h : c = 46 ∨ c = 41) : isPySpace c = false := by
  rcases h with rfl | rfl <;> decide

theorem not_digit_of_punct {c : Nat} (h : c = 46 ∨ c = 41) : isDigitCode c = false := by
  rcases h with rfl | rfl <;> decide

/-- The body matcher agrees with the declarative marker-free prefix:
`t` begins with 1-3 digits followed by spaces and `.` or `)`. -/
theorem questionNumberBody_iff (t : List Nat) :
    questionNumberBody t = true ↔
      ∃ (ds sp2 : List Nat) (pc : Nat) (rest : List Nat),
        t = ds ++ (sp2 ++ pc :: rest) ∧
        (∀ c ∈ ds, isDigitCode c = true) ∧
        1 ≤ ds.length ∧ ds.length ≤ 3 ∧
        (∀ c ∈ sp2, isPySpace c = true) ∧
        (pc = 46 ∨ pc = 41) := by
  constructor
  · intro h
    unfold questionNumberBody at h
    simp only [Bool.and_eq_true, Bool.or_eq_true, beq_iff_eq, decide_eq_true_eq] at h
    obtain ⟨⟨h1, h3⟩, hpc⟩ := h
    refine ⟨t.takeWhile isDigitCode,
      (t.dropWhile isDigitCode).takeWhile isPySpace, ?_⟩
    cases hrest : (t.dropWhile isDigitCode).dropWhile isPySpace with
    | nil =>
      exfalso
      rw [hrest] at hpc
      simp at hpc
    | cons pc rest =>
      refine ⟨pc, rest, ?_, ?_, h1, h3, ?_, ?_⟩
      · rw [← hrest, List.takeWhile_append_dropWhile, List.takeWhile_append_dropWhile]
      · intro c hc
        exact List.mem_takeWhile_imp hc
      · intro c hc
        exact List.mem_takeWhile_imp hc
      · rw [hrest] at hpc
        simpa using hpc
  · rintro ⟨ds, sp2, pc, rest, rfl, hds, h1, h3, hsp2, hpc⟩
    unfold questionNumberBody
    simp only [Bool.and_eq_true, Bool.or_eq_true, beq_iff_eq, decide_eq_true_eq]
    have hnodig : (sp2 ++ pc :: rest).takeWhile isDigitCode = [] := by
      cases sp2 with
      | nil => simp [List.takeWhile_cons, not_digit_of_punct hpc]
      | cons a sp2 =>
        have ha : isPySpace a = true := hsp2 a (List.mem_cons_self a sp2)
        simp [List.takeWhile_cons, not_digit_of_space ha]
    have hdropdig : (ds ++ (sp2 ++ pc :: rest)).dropWhile isDigitCode =
        sp2 ++ pc :: rest := by
      rw [dropWhile_append_all ds (sp2 ++ pc :: rest) hds]
      cases sp2 with
      | nil => simp [List.dropWhile_cons, not_digit_of_punct hpc]
      | cons a sp2 =>
        have ha : isPySpace a = true := hsp2 a (List.mem_cons_self a sp2)
        simp [List.dropWhile_cons, not_digit_of_space ha]
    have htakedig : (ds ++ (sp2 ++ pc :: rest)).takeWhile isDigitCode = ds := by
      rw [takeWhile_append_all ds (sp2 ++ pc :: rest) hds, hnodig, List.append_nil]
    constructor
    · rw [htakedig]
      exact ⟨h1, h3⟩
    · rw [hdropdig, dropWhile_append_all sp2 (pc :: rest) hsp2,
        List.dropWhile_cons, not_space_of_punct hpc]
      simpa using hpc

theorem not_space_of_digit {c : Nat} (h : isDigitCode c = true) : isPySpace c = false := by
  unfold isDigitCode at h
  unfold isPySpace
  simp only [Bool.and_eq_true, decide_eq_true_eq] at h
  simp only [Bool.or_eq_false_iff, beq_eq_false_iff_ne, ne_eq, Bool.and_eq_false_iff,
    decide_eq_false_iff_not]
  omega

/-- The full matcher agrees with the declarative question-number
prefix, optional marker word included. -/
theorem questionNumberMatch_iff (s : List Nat) :
    questionNumberMatch s = true ↔ QuestionNumberPrefix s := by
  constructor
  · intro h
    unfold questionNumberMatch at h
    by_cases hm : s.headD 0 = 47928
    · rw [if_pos (by simpa using hm)] at h
      cases s with
      | nil => simp at hm
      | cons a t0 =>
        have ha : a = 47928 := by simpa using hm
        subst ha
        simp only [List.drop_succ_cons, List.drop_zero] at h
        obtain ⟨ds, sp2, pc, rest, hdec, hds, h1, h3, hsp2, hpc⟩ :=
          (questionNumberBody_iff _).mp h
        refine ⟨[47928], t0.takeWhile isPySpace, ds, sp2, pc, rest, ?_,
          Or.inr rfl, fun c hc => List.mem_takeWhile_imp hc, hds, h1, h3, hsp2, hpc⟩
        rw [← hdec, List.takeWhile_append_dropWhile]
        simp
    · rw [if_neg (by simpa using hm)] at h
      obtain ⟨ds, sp2, pc, rest, hdec, hds, h1, h3, hsp2, hpc⟩ :=
        (questionNumberBody_iff _).mp h
      exact ⟨[], [], ds, sp2, pc, rest, by simpa using hdec,
        Or.inl ⟨rfl, rfl⟩, by simp, hds, h1, h3, hsp2, hpc⟩
  · rintro ⟨marker, sp1, ds, sp2, pc, rest, rfl, hmarker, hsp1, hds, h1, h3, hsp2, hpc⟩
    obtain ⟨d, ds0, rfl⟩ : ∃ d ds0, ds = d :: ds0 := by
      cases ds with
      | nil => simp at h1
      | cons d ds0 => exact ⟨d, ds0, rfl⟩
    have hd : isDigitCode d = true := hds d (List.mem_cons_self d ds0)
    have hd57 : d ≤ 57 := by
      unfold isDigitCode at hd
      simp only [Bool.and_eq_true, decide_eq_true_eq] at hd
      exact hd.2
    rcases hmarker with ⟨rfl, rfl⟩ | rfl
    · unfold questionNumberMatch
      rw [if_neg (by simp; omega)]
      exact (questionNumberBody_iff _).mpr
        ⟨d :: ds0, sp2, pc, rest, by simp, hds, h1, h3, hsp2, hpc⟩
    · unfold questionNumberMatch
      rw [if_pos (by simp)]
      simp only [List.cons_append, List.drop_succ_cons, List.drop_zero, List.nil_append]
      rw [dropWhile_append_all sp1 _ hsp1]
      rw [show List.dropWhile isPySpace (d :: (ds0 ++ (sp2 ++ pc :: rest))) =
          d :: (ds0 ++ (sp2 ++ pc :: rest)) by
        rw [List.dropWhile_cons, not_space_of_digit hd]
        simp]
      exact (questionNumberBody_iff _).mpr
        ⟨d :: ds0, sp2, pc, rest, by simp, hds, h1, h3, hsp2, hpc⟩

/-- C3. The paragraph classifier: concrete behaviour on the four spec
examples, and in general: empty after stripping yields the reserved
default style index 0, a question-number prefix (after dropping leading
zero-width/BOM noise characters) yields the question index, anything
else yields the passage index. -/
theorem classify_paragraph_style_spec (text : List Nat) (q p : Nat) :
    classifyParagraphStyle [49, 46, 32, 102, 111, 111] q p = q ∧
    classifyParagraphStyle [47928, 32, 51, 41, 32, 102, 111, 111] q p = q ∧
    classifyParagraphStyle [32, 32, 32] q p = 0 ∧
    classifyParagraphStyle [112, 108, 97, 105, 110, 32, 116, 101, 120, 116] q p = p ∧
    (pyStrip text = [] → classifyParagraphStyle text q p = 0) ∧
    (pyStrip text ≠ [] → QuestionNumberPrefix ((pyStrip text).dropWhile isNoiseChar) →
      classifyParagraphStyle text q p = q) ∧
    (pyStrip text ≠ [] → ¬QuestionNumberPrefix ((pyStrip text).dropWhile isNoiseChar) →
      classifyParagraphStyle text q p = p) := by
  refine ⟨rfl, rfl, rfl, rfl, ?_, ?_, ?_⟩
  · intro h
    unfold classifyParagraphStyle
    rw [if_pos h]
  · intro hne hq
    unfold classifyParagraphStyle
    rw [if_neg hne, if_pos ((questionNumberMatch_iff _).mpr hq)]
  · intro hne hq
    unfold classifyParagraphStyle
    rw [if_neg hne, if_neg (fun hm => hq ((questionNumberMatch_iff _).mp hm))]

/-- Witness for C3: the question-number example `"1. foo"` with
question index 5 and passage index 7 classifies to 5. -/
theorem classify_paragraph_style_spec_witness :
    pyStrip [49, 46, 32, 102, 111, 111] ≠ [] ∧
    classifyParagraphStyle [49, 46, 32, 102, 111, 111] 5 7 = 5 :=
  ⟨by decide,
   (classify_paragraph_style_spec [49, 46, 32, 102, 111, 111] 5 7).2.2.2.2.2.1
     (by decide) ((questionNumberMatch_iff _).mp (by decide))⟩

/- ### Style-name resolution
(`_resolve_style_index`, src/core/formatter.py lines 193-206)

Style names are lists of characters; the style-index map (built from the
template DocInfo plus the built-in aliases) is an abstract lookup
function.  Python `str.isdigit`/`int` are modelled over ASCII digits. -/

def pyStripChars (l : List Char) : List Char :=
  ((l.dropWhile fun c => isPySpace c.toNat).reverse.dropWhile
    fun c => isPySpace c.toNat).reverse

/-- Python `str.isdigit` (ASCII digits): nonempty and all digits. -/
def isDigitStr (l : List Char) : Bool :=
  decide (l ≠ []) && l.all fun c => isDigitCode c.toNat

/-- Python `int(text)` on a decimal digit string. -/
def strToNatDigits (l : List Char) : Nat :=
  l.foldl (fun a c => 10 * a + (c.toNat - 48)) 0

def lowerChars (l : List Char) : List Char := l.map Char.toLower

/-- `_resolve_style_index(style_name)`: empty or whitespace-only names
resolve to nothing; an all-digit name resolves to its integer value
directly; otherwise the style-index map is consulted with the exact and
then the lower-cased name. -/
def resolveStyleIndex (styleIndexMap : List Char → Option Nat)
    (styleName : List Char) : Option Nat :=
  if styleName = [] then none
  else
    let text := pyStripChars styleName
    if text = [] then none
    else if isDigitStr text then some (strToNatDigits text)
    else
      match styleIndexMap text with
      | some idx => some idx
      | none => styleIndexMap (lowerChars text)

theorem dropWhile_eq_self_of_all_false {α : Type} {p : α → Bool} :
    ∀ (l : List α), (∀ c ∈ l, p c = false) → l.dropWhile p = l := by
  intro l h
  cases l with
  | nil => rfl
  | cons a l =>
    rw [List.dropWhile_cons, h a (List.mem_cons_self a l)]
    simp

/-- C9. A style name consisting solely of decimal digits resolves to its
integer value directly, for every style-index map: the map is never
consulted and no bound against the document style count is applied. -/
theorem resolve_numeric_style_name (styleIndexMap : List Char → Option Nat)
    (s : List Char) (hne : s ≠ [])
    (hdig : ∀ c ∈ s, isDigitCode c.toNat = true) :
    resolveStyleIndex styleIndexMap s = some (strToNatDigits s) := by
  have hnospace : ∀ c ∈ s, isPySpace c.toNat = false := fun c hc =>
    not_space_of_digit (hdig c hc)
  have hstrip : pyStripChars s = s := by
    unfold pyStripChars
    rw [dropWhile_eq_self_of_all_false s hnospace,
      dropWhile_eq_self_of_all_false s.reverse
        (fun c hc => hnospace c (List.mem_reverse.mp hc)),
      List.reverse_reverse]
  unfold resolveStyleIndex
  rw [if_neg hne]
  simp only [hstrip]
  rw [if_neg hne, if_pos]
  unfold isDigitStr
  simp only [Bool.and_eq_true, decide_eq_true_eq, List.all_eq_true]
  exact ⟨hne, hdig⟩

/-- Witness for C9: the name `"12"` resolves to 12 even under a map
that binds every name to 7. -/
theorem resolve_numeric_style_name_witness :
    resolveStyleIndex (fun _ => some 7) [Char.ofNat 49, Char.ofNat 50] = some 12 :=
  resolve_numeric_style_name (fun _ => some 7) [Char.ofNat 49, Char.ofNat 50]
    (by decide) (by decide)

/- ### Record streams and the body rewrite pass
(`_rewrite_style_ids` and `_collect_para_texts`,
src/core/formatter.py lines 592-701 and 992-1035)

A stream is its parsed record sequence (every walker in the source
parses the framing identically).  The rewrite pass is a stateful fold
over the records. -/

/-- A tag-framed record: tag id and payload bytes. -/
structure HRec where
  tag : Nat
  payload : List Nat
deriving DecidableEq

/-- Write one byte of a `bytearray`: stores modulo 256, out-of-range
indices leave the buffer unchanged (the source only writes in-bounds). -/
def setByte (l : List Nat) (i : Nat) (v : Nat) : List Nat :=
  l.set i (v % 256)

/-- Write a block of bytes at an offset; every `struct.pack_into` call
site in the source checks its write is in bounds first. -/
def setBytesAt (l : List Nat) (off : Nat) (bs : List Nat) : List Nat :=
  l.take off ++ bs ++ l.drop (off + bs.length)

/-- `struct.pack_into("<I", data, off, v)`. -/
def setU32le (l : List Nat) (off : Nat) (v : Nat) : List Nat :=
  setBytesAt l off (u32le v)

/-- UTF-16LE decoding of a PARA_TEXT payload as `_collect_para_texts`
does it: codes below 32 are inline-object markers (codes 1-23 skip 12
trailing bytes, codes 24-31 skip 8, code 0 nothing); all other codes
are text.  The fuel argument is the payload length, which bounds the
number of 2-byte reads. -/
def decodeParaTextAux : Nat → List Nat → List Nat
  | 0, _ => []
  | Nat.succ fuel, b0 :: b1 :: rest =>
    let code := b0 + 256 * b1
    if code < 32 then
      if 1 ≤ code ∧ code ≤ 23 then decodeParaTextAux fuel (rest.drop 12)
      else if 24 ≤ code then decodeParaTextAux fuel (rest.drop 8)
      else decodeParaTextAux fuel rest
    else code :: decodeParaTextAux fuel rest
  | Nat.succ _, _ => []

def decodeParaText (payload : List Nat) : List Nat :=
  decodeParaTextAux payload.length payload

/-- The `{para_idx: text}` assignments made by `_collect_para_texts`, in
order: paragraph index counts PARA_HEADER (tag 66) records; each
PARA_TEXT (tag 67) with at least 2 bytes after the first header records
its decoded text under the current index. -/
def collectParaTextsList : List HRec → Nat → List (Nat × List Nat)
  | [], _ => []
  | r :: rs, headerCount =>
    if r.tag = 66 then collectParaTextsList rs (headerCount + 1)
    else if r.tag = 67 ∧ 2 ≤ r.payload.length ∧ 1 ≤ headerCount then
      (headerCount - 1, decodeParaText r.payload) :: collectParaTextsList rs headerCount
    else collectParaTextsList rs headerCount

/-- `_collect_para_texts(body)[idx]` with the dict's last-assignment-wins
semantics; missing entries read as the empty text. -/
def collectParaTexts (body : List HRec) (idx : Nat) : List Nat :=
  ((((collectParaTextsList body 0).reverse.find? fun e => e.1 == idx).map
    Prod.snd).getD [])

/-- The mutable state of the rewrite pass of `_rewrite_style_ids`:
paragraph counter, the style id and char-shape id of the paragraph
being scanned, the changed flag, the question-paragraph hit counter and
the collected `question_emphasis_char_ids` set (insertion-ordered). -/
structure PassState where
  paraIdx : Nat
  activeStyleId : Option Nat
  activeCharId : Option Nat
  changed : Bool
  questionParaHits : Nat
  emphasisIds : List Nat
deriving DecidableEq

def initPassState : PassState :=
  { paraIdx := 0, activeStyleId := none, activeCharId := none,
    changed := false, questionParaHits := 0, emphasisIds := [] }

/-- Python `set.add`: membership-preserving insert. -/
def insertIdOnce (l : List Nat) (v : Nat) : List Nat :=
  if v ∈ l then l else l ++ [v]

/-- The `for off in range(0, size, 8)` collection loop of the rewrite
pass: add every run id that differs from the active char-shape id. -/
def addEmphasisIds (l : List Nat) (ids : List Nat) (activeCid : Nat) : List Nat :=
  ids.foldl (fun acc cid => if cid ≠ activeCid then insertIdOnce acc cid else acc) l

/-- One record step of the rewrite pass of `_rewrite_style_ids`
(lines 619-657): on a PARA_HEADER of at least 11 bytes classify the
stored text, remember the active style and char-shape id, and overwrite
the style-id byte at payload offset 10 when it differs; on a
PARA_CHAR_SHAPE with a known active char id, collect emphasis ids for
question paragraphs and rewrite the runs;  all other records pass
through untouched. -/
def rewriteStep (texts : Nat → List Nat) (questionIdx passageIdx : Nat)
    (questionCharId passageCharId : Option Nat) (st : PassState) (r : HRec) :
    PassState × HRec :=
  if r.tag = 66 ∧ 11 ≤ r.payload.length then
    let text := texts st.paraIdx
    let newStyle := classifyParagraphStyle text questionIdx passageIdx
    let activeCid := if newStyle = questionIdx then questionCharId else passageCharId
    let hits := if newStyle = questionIdx ∧ pyStrip text ≠ [] then
      st.questionParaHits + 1 else st.questionParaHits
    if r.payload.getD 10 0 ≠ newStyle then
      ({ paraIdx := st.paraIdx + 1, activeStyleId := some newStyle,
         activeCharId := activeCid, changed := true, questionParaHits := hits,
         emphasisIds := st.emphasisIds },
       { tag := r.tag, payload := setByte r.payload 10 newStyle })
    else
      ({ paraIdx := st.paraIdx + 1, activeStyleId := some newStyle,
         activeCharId := activeCid, changed := st.changed, questionParaHits := hits,
         emphasisIds := st.emphasisIds }, r)
  else if r.tag = 68 then
    match st.activeCharId with
    | none => (st, r)
    | some cid =>
      let emph :=
        if st.activeStyleId = some questionIdx ∧ 8 ≤ r.payload.length ∧
            r.payload.length % 8 = 0 then
          addEmphasisIds st.emphasisIds (runIds r.payload) cid
        else st.emphasisIds
      let rewritten := rewriteParaCharShapeRuns r.payload cid
      ({ st with emphasisIds := emph, changed := st.changed || rewritten.2 },
       { tag := r.tag, payload := rewritten.1 })
  else (st, r)

/-- The whole rewrite pass: fold `rewriteStep` over the body records,
returning the final state and the rewritten records. -/
def runRewritePass (texts : Nat → List Nat) (questionIdx passageIdx : Nat)
    (questionCharId passageCharId : Option Nat) :
    PassState → List HRec → PassState × List HRec
  | st, [] => (st, [])
  | st, r :: rs =>
    let step1 := rewriteStep texts questionIdx passageIdx questionCharId passageCharId st r
    let rest := runRewritePass texts questionIdx passageIdx questionCharId passageCharId
      step1.1 rs
    (rest.1, step1.2 :: rest.2)

/- ### Stability of the run rewrite (toward idempotence of the pass) -/

theorem readU32le_u32le (v : Nat) (h : v < 4294967296) : readU32le (u32le v) = v := by
  unfold readU32le u32le
  simp only [List.headD_cons, List.drop_succ_cons, List.drop_zero]
  omega

theorem count_map_ite_target {b t : Nat} (hbt : b ≠ t) :
    ∀ l : List Nat, (l.map fun x => if x = b then t else x).count t =
      l.count b + l.count t := by
  intro l
  induction l with
  | nil => rfl
  | cons x xs ih =>
    simp only [List.map_cons, List.count_cons, ih, beq_iff_eq]
    split_ifs <;> omega

theorem count_map_ite_other {b t d : Nat} (hd1 : d ≠ t) (hd2 : d ≠ b) :
    ∀ l : List Nat, (l.map fun x => if x = b then t else x).count d = l.count d := by
  intro l
  induction l with
  | nil => rfl
  | cons x xs ih =>
    simp only [List.map_cons, List.count_cons, ih, beq_iff_eq]
    split_ifs <;> omega

theorem indexOf_map_ite_target {b t : Nat} :
    ∀ l : List Nat, t ∉ l → b ∈ l →
      (l.map fun x => if x = b then t else x).indexOf t = l.indexOf b := by
  intro l
  induction l with
  | nil => intro _ hb; exact absurd hb (List.not_mem_nil b)
  | cons x xs ih =>
    intro ht hb
    by_cases hxb : x = b
    · subst hxb
      have hmap : (x :: xs).map (fun y => if y = x then t else y) =
          t :: xs.map fun y => if y = x then t else y := by simp
      rw [hmap, List.indexOf_cons_self, List.indexOf_cons_self]
    · have hxt : x ≠ t := fun he => ht (he ▸ List.mem_cons_self x xs)
      have hmap : (x :: xs).map (fun y => if y = b then t else y) =
          x :: xs.map fun y => if y = b then t else y := by simp [hxb]
      rw [hmap, List.indexOf_cons_ne _ hxt, List.indexOf_cons_ne _ hxb,
        ih (fun h => ht (List.mem_cons_of_mem x h))
          ((List.mem_cons.mp hb).resolve_left fun h => hxb h.symm)]

theorem indexOf_map_ite_other {b t d : Nat} (hd1 : d ≠ t) (hd2 : d ≠ b) :
    ∀ l : List Nat, (l.map fun x => if x = b then t else x).indexOf d = l.indexOf d := by
  intro l
  induction l with
  | nil => rfl
  | cons x xs ih =>
    by_cases hxb : x = b
    · subst hxb
      have hmap : (x :: xs).map (fun y => if y = x then t else y) =
          t :: xs.map fun y => if y = x then t else y := by simp
      rw [hmap, List.indexOf_cons_ne _ (Ne.symm hd1), List.indexOf_cons_ne _ (Ne.symm hd2), ih]
    · have hmap : (x :: xs).map (fun y => if y = b then t else y) =
          x :: xs.map fun y => if y = b then t else y := by simp [hxb]
      rw [hmap]
      by_cases hxd : x = d
      · subst hxd
        rw [List.indexOf_cons_self, List.indexOf_cons_self]
      · rw [List.indexOf_cons_ne _ hxd, List.indexOf_cons_ne _ hxd, ih]

/-- After the base id of a run-id list has been globally replaced by a
different target, the target is the new base.  This is why the rewrite
pass is idempotent on PARA_CHAR_SHAPE records. -/
theorem pickBase_map_to_target {l : List Nat} (hl : l ≠ []) {t : Nat}
    (hbt : pickBase l ≠ t) :
    pickBase (l.map fun x => if x = pickBase l then t else x) = t := by
  obtain ⟨hbmem, hbspec⟩ := pickBase_spec l hl
  apply pickBase_unique _ t (List.mem_map.mpr ⟨pickBase l, hbmem, by simp⟩)
  intro d hd hdt
  have hdl : d ∈ l ∧ d ≠ pickBase l := by
    rcases List.mem_map.mp hd with ⟨x, hx, hxe⟩
    by_cases hxb : x = pickBase l
    · rw [if_pos hxb] at hxe
      exact absurd hxe hdt.symm
    · rw [if_neg hxb] at hxe
      subst hxe
      exact ⟨hx, hxb⟩
  obtain ⟨hdmem, hdb⟩ := hdl
  have hkey := hbspec d hdmem hdb
  have hct := count_map_ite_target hbt l
  have hcd := count_map_ite_other hdt hdb l
  unfold keyBetter at hkey ⊢
  rcases hkey with hlt | ⟨heq, hidx⟩
  · left
    rw [hct, hcd]
    omega
  · by_cases hctz : l.count t = 0
    · have htnot : t ∉ l := List.count_eq_zero.mp hctz
      right
      refine ⟨by rw [hct, hcd]; omega, ?_⟩
      rw [indexOf_map_ite_target l htnot hbmem, indexOf_map_ite_other hdt hdb l]
      exact hidx
    · left
      rw [hct, hcd]
      omega

theorem exists_eight_of_length (c : List Nat) (hc : c.length = 8) :
    ∃ a b c3 d e f g h, c = [a, b, c3, d, e, f, g, h] := by
  rcases c with _ | ⟨a, c⟩
  · simp at hc
  rcases c with _ | ⟨b, c⟩
  · simp at hc
  rcases c with _ | ⟨c3, c⟩
  · simp at hc
  rcases c with _ | ⟨d, c⟩
  · simp at hc
  rcases c with _ | ⟨e, c⟩
  · simp at hc
  rcases c with _ | ⟨f, c⟩
  · simp at hc
  rcases c with _ | ⟨g, c⟩
  · simp at hc
  rcases c with _ | ⟨h, c⟩
  · simp at hc
  refine ⟨a, b, c3, d, e, f, g, h, ?_⟩
  have : c = [] := by
    simp only [List.length_cons] at hc
    exact List.length_eq_zero.mp (by omega)
  rw [this]

theorem chunksOf8_flatten_uniform :
    ∀ (cs : List (List Nat)), (∀ c ∈ cs, c.length = 8) → chunksOf8 cs.flatten = cs := by
  intro cs
  induction cs with
  | nil => intro _; rfl
  | cons c cs ih =>
    intro h
    obtain ⟨a, b, c3, d, e, f, g, h8, rfl⟩ :=
      exists_eight_of_length c (h c (List.mem_cons_self c cs))
    simp only [List.flatten_cons, List.cons_append, List.nil_append]
    rw [chunksOf8]
    rw [ih fun d hd => h d (List.mem_cons_of_mem _ hd)]

/-- Branch equations of `_rewrite_para_char_shape_runs`. -/
theorem rewrite_runs_eq_of_bad (payload : List Nat) (cid : Nat)
    (hbad : payload.length < 8 ∨ payload.length % 8 ≠ 0) :
    rewriteParaCharShapeRuns payload cid = (payload, false) := by
  unfold rewriteParaCharShapeRuns
  rw [if_pos hbad]

theorem rewrite_runs_eq_single_ne (payload : List Nat) (cid : Nat)
    (hge : 8 ≤ payload.length) (hmod : payload.length % 8 = 0)
    (hone : (chunksOf8 payload).length = 1) (hid : runIdOf payload ≠ cid) :
    rewriteParaCharShapeRuns payload cid = (payload.take 4 ++ u32le cid, true) := by
  unfold rewriteParaCharShapeRuns
  rw [if_neg (by push_neg; omega)]
  simp only []
  rw [if_pos hone, if_pos hid]

theorem rewrite_runs_eq_single_eq (payload : List Nat) (cid : Nat)
    (hge : 8 ≤ payload.length) (hmod : payload.length % 8 = 0)
    (hone : (chunksOf8 payload).length = 1) (hid : runIdOf payload = cid) :
    rewriteParaCharShapeRuns payload cid = (payload, false) := by
  unfold rewriteParaCharShapeRuns
  rw [if_neg (by push_neg; omega)]
  simp only []
  rw [if_pos hone, if_neg (by simpa using hid)]

theorem rewrite_runs_eq_multi (payload : List Nat) (cid : Nat)
    (hge : 8 ≤ payload.length) (hmod : payload.length % 8 = 0)
    (hne1 : (chunksOf8 payload).length ≠ 1) :
    rewriteParaCharShapeRuns payload cid =
      (((chunksOf8 payload).map fun c =>
          if runIdOf c = pickBase ((chunksOf8 payload).map runIdOf) ∧ runIdOf c ≠ cid then
            c.take 4 ++ u32le cid else c).flatten,
       (chunksOf8 payload).any fun c =>
         decide (runIdOf c = pickBase ((chunksOf8 payload).map runIdOf) ∧
           runIdOf c ≠ cid)) := by
  unfold rewriteParaCharShapeRuns
  rw [if_neg (by push_neg; omega)]
  simp only []
  rw [if_neg hne1]

/-- The rewrite preserves the payload length. -/
theorem rewrite_runs_length (payload : List Nat) (cid : Nat) :
    (rewriteParaCharShapeRuns payload cid).1.length = payload.length := by
  by_cases hbad : payload.length < 8 ∨ payload.length % 8 ≠ 0
  · rw [rewrite_runs_eq_of_bad payload cid hbad]
  · push_neg at hbad
    obtain ⟨hge, hmod⟩ := hbad
    have hmem8 := chunksOf8_length_mem payload hmod
    by_cases hone : (chunksOf8 payload).length = 1
    · by_cases hid : runIdOf payload = cid
      · rw [rewrite_runs_eq_single_eq payload cid hge hmod hone hid]
      · rw [rewrite_runs_eq_single_ne payload cid hge hmod hone hid]
        have hlen8 : payload.length = 8 := by
          have := chunksOf8_count payload hmod
          rw [hone] at this
          omega
        simp only [List.length_append, List.length_take, u32le, List.length_cons,
          List.length_nil]
        omega
    · rw [rewrite_runs_eq_multi payload cid hge hmod hone]
      have huni : ∀ c ∈ (chunksOf8 payload).map fun c =>
          if runIdOf c = pickBase ((chunksOf8 payload).map runIdOf) ∧ runIdOf c ≠ cid then
            c.take 4 ++ u32le cid else c, c.length = 8 := by
        intro c hc
        rcases List.mem_map.mp hc with ⟨c0, hc0, rfl⟩
        have h8 := hmem8 c0 hc0
        split
        · simp [u32le, List.length_take]
          omega
        · exact h8
      simp only []
      rw [flatten_length_uniform _ huni, List.length_map]
      rw [chunksOf8_count payload hmod]
      omega

/-- The run ids seen after the multi-run rewrite are the original ids
with the base id replaced by the target. -/
theorem runIds_after_multi (payload : List Nat) (cid : Nat)
    (hcid : cid < 4294967296) (hmod : payload.length % 8 = 0) :
    ((chunksOf8 payload).map fun c =>
        if runIdOf c = pickBase ((chunksOf8 payload).map runIdOf) ∧ runIdOf c ≠ cid then
          c.take 4 ++ u32le cid else c).map runIdOf =
      ((chunksOf8 payload).map runIdOf).map
        fun x => if x = pickBase ((chunksOf8 payload).map runIdOf) ∧ x ≠ cid then
          cid else x := by
  have hmem8 := chunksOf8_length_mem payload hmod
  rw [List.map_map, List.map_map]
  apply List.map_congr_left
  intro c hc
  have h8 := hmem8 c hc
  simp only [Function.comp_apply]
  by_cases hcond : runIdOf c = pickBase ((chunksOf8 payload).map runIdOf) ∧
      runIdOf c ≠ cid
  · rw [if_pos hcond, if_pos hcond]
    unfold runIdOf
    rw [List.drop_left' (by simp [List.length_take]; omega)]
    exact readU32le_u32le cid hcid
  · rw [if_neg hcond, if_neg hcond]

/-- Key idempotence lemma: running the run rewrite a second time with
the same target changes nothing. -/
theorem rewrite_runs_idempotent (payload : List Nat) (cid : Nat)
    (hcid : cid < 4294967296) :
    (rewriteParaCharShapeRuns (rewriteParaCharShapeRuns payload cid).1 cid).2 = false := by
  by_cases hbad : payload.length < 8 ∨ payload.length % 8 ≠ 0
  · rw [rewrite_runs_eq_of_bad payload cid hbad]
    simp only []
    rw [rewrite_runs_eq_of_bad payload cid hbad]
  · push_neg at hbad
    obtain ⟨hge, hmod⟩ := hbad
    have hmem8 := chunksOf8_length_mem payload hmod
    by_cases hone : (chunksOf8 payload).length = 1
    · have hlen8 : payload.length = 8 := by
        have := chunksOf8_count payload hmod
        rw [hone] at this
        omega
      by_cases hid : runIdOf payload = cid
      · rw [rewrite_runs_eq_single_eq payload cid hge hmod hone hid]
        simp only []
        rw [rewrite_runs_eq_single_eq payload cid hge hmod hone hid]
      · rw [rewrite_runs_eq_single_ne payload cid hge hmod hone hid]
        simp only []
        have hout : (payload.take 4 ++ u32le cid).length = 8 := by
          simp [u32le, List.length_take]
          omega
        have houtid : runIdOf (payload.take 4 ++ u32le cid) = cid := by
          unfold runIdOf
          rw [List.drop_left' (by simp [List.length_take]; omega)]
          exact readU32le_u32le cid hcid
        rw [rewrite_runs_eq_single_eq _ cid (by rw [hout]) (by rw [hout])
          (by rw [chunksOf8_count _ (by rw [hout]), hout]) houtid]
    · rw [rewrite_runs_eq_multi payload cid hge hmod hone]
      simp only []
      set f : List Nat → List Nat := fun c =>
        if runIdOf c = pickBase ((chunksOf8 payload).map runIdOf) ∧ runIdOf c ≠ cid then
          c.take 4 ++ u32le cid else c with hf
      have huni : ∀ c ∈ (chunksOf8 payload).map f, c.length = 8 := by
        intro c hc
        rcases List.mem_map.mp hc with ⟨c0, hc0, rfl⟩
        have h8 := hmem8 c0 hc0
        simp only [hf]
        split
        · simp [u32le, List.length_take]
          omega
        · exact h8
      have hchunks_out : chunksOf8 ((chunksOf8 payload).map f).flatten =
          (chunksOf8 payload).map f := chunksOf8_flatten_uniform _ huni
      have hlen_out : ((chunksOf8 payload).map f).flatten.length = payload.length := by
        rw [flatten_length_uniform _ huni, List.length_map, chunksOf8_count payload hmod]
        omega
      have hcount_out : (chunksOf8 ((chunksOf8 payload).map f).flatten).length ≠ 1 := by
        rw [hchunks_out, List.length_map]
        exact hone
      rw [rewrite_runs_eq_multi _ cid (by omega) (by omega) hcount_out]
      simp only []
      have hids_ne : (chunksOf8 payload).map runIdOf ≠ [] := by
        intro h
        have := congrArg List.length h
        simp [chunksOf8_count payload hmod] at this
        omega
      have hids : (chunksOf8 ((chunksOf8 payload).map f).flatten).map runIdOf =
          ((chunksOf8 payload).map runIdOf).map
            fun x => if x = pickBase ((chunksOf8 payload).map runIdOf) ∧ x ≠ cid then
              cid else x := by
        rw [hchunks_out]
        exact runIds_after_multi payload cid hcid hmod
      have hbase2 : pickBase ((chunksOf8 ((chunksOf8 payload).map f).flatten).map
          runIdOf) = cid := by
        rw [hids]
        by_cases hbcid : pickBase ((chunksOf8 payload).map runIdOf) = cid
        · have hmapid : ((chunksOf8 payload).map runIdOf).map
              (fun x => if x = pickBase ((chunksOf8 payload).map runIdOf) ∧ x ≠ cid then
                cid else x) = (chunksOf8 payload).map runIdOf := by
            have hpt : ∀ x ∈ (chunksOf8 payload).map runIdOf,
                (if x = pickBase ((chunksOf8 payload).map runIdOf) ∧ x ≠ cid then
                  cid else x) = id x := by
              intro x _
              simp only [id_eq]
              rw [if_neg]
              rintro ⟨h1, h2⟩
              exact h2 (h1.trans hbcid)
            rw [List.map_congr_left hpt, List.map_id]
          rw [hmapid]
          exact hbcid
        · have hmap_eq : ((chunksOf8 payload).map runIdOf).map
              (fun x => if x = pickBase ((chunksOf8 payload).map runIdOf) ∧ x ≠ cid then
                cid else x) =
              ((chunksOf8 payload).map runIdOf).map
                fun x => if x = pickBase ((chunksOf8 payload).map runIdOf) then
                  cid else x := by
            apply List.map_congr_left
            intro x _
            by_cases hx : x = pickBase ((chunksOf8 payload).map runIdOf)
            · subst hx
              rw [if_pos ⟨rfl, hbcid⟩, if_pos rfl]
            · rw [if_neg (fun h => hx h.1), if_neg hx]
          rw [hmap_eq]
          exact pickBase_map_to_target hids_ne hbcid
      rw [List.any_eq_false]
      intro c hc
      simp only [hbase2, decide_eq_true_eq]
      simp

theorem getD_set_self : ∀ (l : List Nat) (i v : Nat), i < l.length →
    (l.set i v).getD i 0 = v := by
  intro l
  induction l with
  | nil => intro i v h; simp at h
  | cons a l ih =>
    intro i v h
    cases i with
    | zero => simp
    | succ j => simpa using ih j v (by simpa using Nat.lt_of_succ_lt_succ h)

theorem classify_cases (t : List Nat) (q p : Nat) :
    classifyParagraphStyle t q p = 0 ∨ classifyParagraphStyle t q p = q ∨
      classifyParagraphStyle t q p = p := by
  simp only [classifyParagraphStyle]
  split
  · exact Or.inl rfl
  · split
    · exact Or.inr (Or.inl rfl)
    · exact Or.inr (Or.inr rfl)

/-- Branch equations of `rewriteStep`. -/
theorem rewriteStep_eq_header (texts : Nat → List Nat) (q p : Nat)
    (qc pc : Option Nat) (st : PassState) (r : HRec)
    (h66 : r.tag = 66 ∧ 11 ≤ r.payload.length) :
    rewriteStep texts q p qc pc st r =
      (if r.payload.getD 10 0 ≠ classifyParagraphStyle (texts st.paraIdx) q p then
        ({ paraIdx := st.paraIdx + 1,
           activeStyleId := some (classifyParagraphStyle (texts st.paraIdx) q p),
           activeCharId := if classifyParagraphStyle (texts st.paraIdx) q p = q then
             qc else pc,
           changed := true,
           questionParaHits := if classifyParagraphStyle (texts st.paraIdx) q p = q ∧
             pyStrip (texts st.paraIdx) ≠ [] then st.questionParaHits + 1
             else st.questionParaHits,
           emphasisIds := st.emphasisIds },
         { tag := r.tag,
           payload := setByte r.payload 10 (classifyParagraphStyle (texts st.paraIdx) q p) })
      else
        ({ paraIdx := st.paraIdx + 1,
           activeStyleId := some (classifyParagraphStyle (texts st.paraIdx) q p),
           activeCharId := if classifyParagraphStyle (texts st.paraIdx) q p = q then
             qc else pc,
           changed := st.changed,
           questionParaHits := if classifyParagraphStyle (texts st.paraIdx) q p = q ∧
             pyStrip (texts st.paraIdx) ≠ [] then st.questionParaHits + 1
             else st.questionParaHits,
           emphasisIds := st.emphasisIds }, r)) := by
  unfold rewriteStep
  rw [if_pos h66]

theorem rewriteStep_eq_68 (texts : Nat → List Nat) (q p : Nat)
    (qc pc : Option Nat) (st : PassState) (r : HRec)
    (h68 : r.tag = 68) (hn66 : r.tag ≠ 66) :
    rewriteStep texts q p qc pc st r =
      match st.activeCharId with
      | none => (st, r)
      | some cid =>
        ({ st with
           emphasisIds :=
             if st.activeStyleId = some q ∧ 8 ≤ r.payload.length ∧
                 r.payload.length % 8 = 0 then
               addEmphasisIds st.emphasisIds (runIds r.payload) cid
             else st.emphasisIds,
           changed := st.changed || (rewriteParaCharShapeRuns r.payload cid).2 },
         { tag := r.tag, payload := (rewriteParaCharShapeRuns r.payload cid).1 }) := by
  unfold rewriteStep
  rw [if_neg (fun h => hn66 h.1), if_pos h68]

theorem rewriteStep_eq_other (texts : Nat → List Nat) (q p : Nat)
    (qc pc : Option Nat) (st : PassState) (r : HRec)
    (hn66 : ¬(r.tag = 66 ∧ 11 ≤ r.payload.length)) (hn68 : r.tag ≠ 68) :
    rewriteStep texts q p qc pc st r = (st, r) := by
  unfold rewriteStep
  rw [if_neg hn66, if_neg hn68]

/-- Relation between the first-run state and the second-run state at
the same position of the stream: the classification-relevant components
agree, the second run has seen no change, and the active char id is one
of the two resolved char-shape ids. -/
def SecondRunRel (qc pc : Option Nat) (s1 s2 : PassState) : Prop :=
  s2.paraIdx = s1.paraIdx ∧ s2.activeStyleId = s1.activeStyleId ∧
  s2.activeCharId = s1.activeCharId ∧ s2.changed = false ∧
  (s1.activeCharId = none ∨ s1.activeCharId = qc ∨ s1.activeCharId = pc)

theorem rewriteStep_second (texts : Nat → List Nat) (q p : Nat) (qc pc : Option Nat)
    (hq : q < 256) (hp : p < 256)
    (hqc : ∀ v, qc = some v → v < 4294967296)
    (hpc : ∀ v, pc = some v → v < 4294967296)
    (s1 s2 : PassState) (r : HRec) (hrel : SecondRunRel qc pc s1 s2) :
    SecondRunRel qc pc (rewriteStep texts q p qc pc s1 r).1
      (rewriteStep texts q p qc pc s2 (rewriteStep texts q p qc pc s1 r).2).1 := by
  obtain ⟨h1, h2, h3, h4, hinv⟩ := hrel
  by_cases h66 : r.tag = 66 ∧ 11 ≤ r.payload.length
  · have hns256 : classifyParagraphStyle (texts s1.paraIdx) q p < 256 := by
      rcases classify_cases (texts s1.paraIdx) q p with h | h | h <;> rw [h] <;> omega
    rw [rewriteStep_eq_header texts q p qc pc s1 r h66]
    by_cases hb : r.payload.getD 10 0 ≠ classifyParagraphStyle (texts s1.paraIdx) q p
    · rw [if_pos hb]
      simp only []
      have h66b : ((⟨r.tag, setByte r.payload 10
            (classifyParagraphStyle (texts s1.paraIdx) q p)⟩ : HRec)).tag = 66 ∧
          11 ≤ ((⟨r.tag, setByte r.payload 10
            (classifyParagraphStyle (texts s1.paraIdx) q p)⟩ : HRec)).payload.length := by
        refine ⟨h66.1, ?_⟩
        simp only [setByte, List.length_set]
        exact h66.2
      rw [rewriteStep_eq_header texts q p qc pc s2 _ h66b]
      have hbyte : (setByte r.payload 10
          (classifyParagraphStyle (texts s1.paraIdx) q p)).getD 10 0 =
          classifyParagraphStyle (texts s1.paraIdx) q p := by
        unfold setByte
        rw [getD_set_self r.payload 10 _ (by omega)]
        omega
      have hcond2 : ¬((⟨r.tag, setByte r.payload 10
          (classifyParagraphStyle (texts s1.paraIdx) q p)⟩ : HRec).payload.getD 10 0 ≠
          classifyParagraphStyle (texts s2.paraIdx) q p) := by
        rw [h1]
        show ¬((setByte r.payload 10
          (classifyParagraphStyle (texts s1.paraIdx) q p)).getD 10 0 ≠
          classifyParagraphStyle (texts s1.paraIdx) q p)
        rw [hbyte]
        exact fun h => h rfl
      rw [if_neg hcond2]
      refine ⟨by simp [h1], by simp [h1], by simp [h1], by simp [h4], ?_⟩
      by_cases hq2 : classifyParagraphStyle (texts s1.paraIdx) q p = q
      · refine Or.inr (Or.inl ?_)
        show (if classifyParagraphStyle (texts s1.paraIdx) q p = q then qc else pc) = qc
        rw [if_pos hq2]
      · refine Or.inr (Or.inr ?_)
        show (if classifyParagraphStyle (texts s1.paraIdx) q p = q then qc else pc) = pc
        rw [if_neg hq2]
    · rw [if_neg hb]
      simp only []
      rw [rewriteStep_eq_header texts q p qc pc s2 r h66]
      have hcond2 : ¬(r.payload.getD 10 0 ≠
          classifyParagraphStyle (texts s2.paraIdx) q p) := by
        rw [h1]
        exact hb
      rw [if_neg hcond2]
      refine ⟨by simp [h1], by simp [h1], by simp [h1], by simp [h4], ?_⟩
      by_cases hq2 : classifyParagraphStyle (texts s1.paraIdx) q p = q
      · refine Or.inr (Or.inl ?_)
        show (if classifyParagraphStyle (texts s1.paraIdx) q p = q then qc else pc) = qc
        rw [if_pos hq2]
      · refine Or.inr (Or.inr ?_)
        show (if classifyParagraphStyle (texts s1.paraIdx) q p = q then qc else pc) = pc
        rw [if_neg hq2]
  · by_cases h68 : r.tag = 68
    · have hn66 : r.tag ≠ 66 := by
        intro h
        rw [h] at h68
        exact absurd h68 (by decide)
      rw [rewriteStep_eq_68 texts q p qc pc s1 r h68 hn66]
      cases hcid : s1.activeCharId with
      | none =>
        simp only []
        rw [rewriteStep_eq_68 texts q p qc pc s2 r h68 hn66, h3, hcid]
        exact ⟨h1, h2, by rw [h3, hcid], h4, by rw [hcid]; exact Or.inl rfl⟩
      | some cid =>
        simp only []
        have hcid32 : cid < 4294967296 := by
          rcases hinv with h | h | h
          · rw [hcid] at h; exact absurd h (by simp)
          · rw [hcid] at h; exact hqc cid h.symm
          · rw [hcid] at h; exact hpc cid h.symm
        rw [rewriteStep_eq_68 texts q p qc pc s2
          ⟨r.tag, (rewriteParaCharShapeRuns r.payload cid).1⟩ h68 hn66, h3, hcid]
        simp only []
        refine ⟨by simp [h1], by simp [h2], by simp [h3, hcid], ?_, ?_⟩
        · simp only [h4, Bool.false_or]
          exact rewrite_runs_idempotent r.payload cid hcid32
        · simp only [hcid]
          rcases hinv with h | h | h
          · rw [hcid] at h; exact absurd h (by simp)
          · rw [hcid] at h; exact Or.inr (Or.inl h)
          · rw [hcid] at h; exact Or.inr (Or.inr h)
    · rw [rewriteStep_eq_other texts q p qc pc s1 r h66 h68]
      simp only []
      rw [rewriteStep_eq_other texts q p qc pc s2 r h66 h68]
      exact ⟨h1, h2, h3, h4, hinv⟩

theorem runRewritePass_second (texts : Nat → List Nat) (q p : Nat) (qc pc : Option Nat)
    (hq : q < 256) (hp : p < 256)
    (hqc : ∀ v, qc = some v → v < 4294967296)
    (hpc : ∀ v, pc = some v → v < 4294967296) :
    ∀ (body : List HRec) (s1 s2 : PassState), SecondRunRel qc pc s1 s2 →
      SecondRunRel qc pc (runRewritePass texts q p qc pc s1 body).1
        (runRewritePass texts q p qc pc s2
          (runRewritePass texts q p qc pc s1 body).2).1 := by
  intro body
  induction body with
  | nil => intro s1 s2 h; exact h
  | cons r rs ih =>
    intro s1 s2 h
    simp only [runRewritePass]
    exact ih _ _ (rewriteStep_second texts q p qc pc hq hp hqc hpc s1 s2 r h)

theorem rewriteStep_tag (texts : Nat → List Nat) (q p : Nat) (qc pc : Option Nat)
    (st : PassState) (r : HRec) :
    (rewriteStep texts q p qc pc st r).2.tag = r.tag := by
  by_cases h66 : r.tag = 66 ∧ 11 ≤ r.payload.length
  · rw [rewriteStep_eq_header texts q p qc pc st r h66]
    split <;> rfl
  · by_cases h68 : r.tag = 68
    · rw [rewriteStep_eq_68 texts q p qc pc st r h68
        (fun h => by rw [h] at h68; exact absurd h68 (by decide))]
      cases st.activeCharId <;> rfl
    · rw [rewriteStep_eq_other texts q p qc pc st r h66 h68]

theorem rewriteStep_not66not68 (texts : Nat → List Nat) (q p : Nat)
    (qc pc : Option Nat) (st : PassState) (r : HRec)
    (h66 : r.tag ≠ 66) (h68 : r.tag ≠ 68) :
    (rewriteStep texts q p qc pc st r).2 = r := by
  rw [rewriteStep_eq_other texts q p qc pc st r (fun h => h66 h.1) h68]

/-- The rewrite pass never alters PARA_TEXT records nor the record tag
sequence, so the text collection of the rewritten body is the text
collection of the original body. -/
theorem collect_list_pass (texts : Nat → List Nat) (q p : Nat) (qc pc : Option Nat) :
    ∀ (body : List HRec) (st : PassState) (hc : Nat),
      collectParaTextsList (runRewritePass texts q p qc pc st body).2 hc =
        collectParaTextsList body hc := by
  intro body
  induction body with
  | nil => intro st hc; rfl
  | cons r rs ih =>
    intro st hc
    simp only [runRewritePass]
    by_cases h66 : r.tag = 66
    · simp [collectParaTextsList, rewriteStep_tag, h66, ih]
    · by_cases h68 : r.tag = 68
      · simp [collectParaTextsList, rewriteStep_tag, h66, h68, ih]
      · rw [rewriteStep_not66not68 texts q p qc pc st r h66 h68]
        simp only [collectParaTextsList]
        rw [if_neg h66]
        by_cases h67 : r.tag = 67 ∧ 2 ≤ r.payload.length ∧ 1 ≤ hc
        · rw [if_pos h67, if_pos h67, ih, if_neg h66]
        · rw [if_neg h67, if_neg h67, ih, if_neg h66]

theorem collectParaTexts_pass (texts : Nat → List Nat) (q p : Nat)
    (qc pc : Option Nat) (body : List HRec) (st : PassState) :
    collectParaTexts (runRewritePass texts q p qc pc st body).2 =
      collectParaTexts body := by
  funext idx
  unfold collectParaTexts
  rw [collect_list_pass]

/-- C5. Idempotence of the rewrite pass: running `_rewrite_style_ids`
a second time on the body that the first run produced (with the same
resolved style indices and char-shape ids) finds nothing to change: the
changed flag of the second run is false, so the second run skips the
body-stream write.  The style indices are byte values and the char ids
uint32 values, as the first run requires to complete normally. -/
theorem rewrite_pass_idempotent (body : List HRec) (q p : Nat) (qc pc : Option Nat)
    (hq : q < 256) (hp : p < 256)
    (hqc : ∀ v, qc = some v → v < 4294967296)
    (hpc : ∀ v, pc = some v → v < 4294967296) :
    (runRewritePass
        (collectParaTexts
          (runRewritePass (collectParaTexts body) q p qc pc initPassState body).2)
        q p qc pc initPassState
        (runRewritePass (collectParaTexts body) q p qc pc
          initPassState body).2).1.changed = false := by
  rw [collectParaTexts_pass]
  exact (runRewritePass_second (collectParaTexts body) q p qc pc hq hp hqc hpc body
    initPassState initPassState ⟨rfl, rfl, rfl, rfl, Or.inl rfl⟩).2.2.2.1

/- Shared demonstration records: a question paragraph
(`"1."`, style byte 0) with three char-shape runs `[100, 200, 100]`,
and a whitespace-only paragraph with a single run. -/

def demoHeaderPayload : List Nat := List.replicate 11 0

def demoQuestionTextPayload : List Nat := [49, 0, 46, 0]

def demoRunsPayload : List Nat :=
  u32le 0 ++ u32le 100 ++ u32le 8 ++ u32le 200 ++ u32le 16 ++ u32le 100

def demoBody : List HRec :=
  [⟨66, demoHeaderPayload⟩, ⟨67, demoQuestionTextPayload⟩, ⟨68, demoRunsPayload⟩]

/-- Witness for C5: on the demonstration body with question style 3,
passage style 4 and char ids 50/60, the second run reports no change. -/
theorem rewrite_pass_idempotent_witness :
    (runRewritePass
        (collectParaTexts
          (runRewritePass (collectParaTexts demoBody) 3 4 (some 50) (some 60)
            initPassState demoBody).2)
        3 4 (some 50) (some 60) initPassState
        (runRewritePass (collectParaTexts demoBody) 3 4 (some 50) (some 60)
          initPassState demoBody).2).1.changed = false :=
  rewrite_pass_idempotent demoBody 3 4 (some 50) (some 60) (by decide) (by decide)
    (by intro v hv; cases hv; decide) (by intro v hv; cases hv; decide)

/- ### The emphasis-id collection of the rewrite pass (C7) -/

theorem mem_insertIdOnce (l : List Nat) (v x : Nat) :
    x ∈ insertIdOnce l v ↔ x ∈ l ∨ x = v := by
  unfold insertIdOnce
  split
  · rename_i hv
    constructor
    · exact Or.inl
    · rintro (h | rfl)
      · exact h
      · exact hv
  · simp [List.mem_append]

theorem mem_addEmphasisIds :
    ∀ (ids l : List Nat) (cid x : Nat),
      x ∈ addEmphasisIds l ids cid ↔ x ∈ l ∨ (x ∈ ids ∧ x ≠ cid) := by
  intro ids
  induction ids with
  | nil => intro l cid x; simp [addEmphasisIds]
  | cons i ids ih =>
    intro l cid x
    unfold addEmphasisIds
    simp only [List.foldl_cons]
    by_cases hic : i ≠ cid
    · rw [if_pos hic]
      rw [show List.foldl (fun acc cid2 => if cid2 ≠ cid then insertIdOnce acc cid2
          else acc) (insertIdOnce l i) ids = addEmphasisIds (insertIdOnce l i) ids cid
          from rfl, ih]
      rw [mem_insertIdOnce]
      constructor
      · rintro ((h | rfl) | ⟨h1, h2⟩)
        · exact Or.inl h
        · exact Or.inr ⟨List.mem_cons_self _ _, hic⟩
        · exact Or.inr ⟨List.mem_cons_of_mem i h1, h2⟩
      · rintro (h | ⟨h1, h2⟩)
        · exact Or.inl (Or.inl h)
        · rcases List.mem_cons.mp h1 with rfl | h1
          · exact Or.inl (Or.inr rfl)
          · exact Or.inr ⟨h1, h2⟩
    · rw [if_neg hic]
      push_neg at hic
      rw [show List.foldl (fun acc cid2 => if cid2 ≠ cid then insertIdOnce acc cid2
          else acc) l ids = addEmphasisIds l ids cid from rfl, ih]
      constructor
      · rintro (h | ⟨h1, h2⟩)
        · exact Or.inl h
        · exact Or.inr ⟨List.mem_cons_of_mem i h1, h2⟩
      · rintro (h | ⟨h1, h2⟩)
        · exact Or.inl h
        · rcases List.mem_cons.mp h1 with rfl | h1
          · exact absurd hic h2
          · exact Or.inr ⟨h1, h2⟩

/-- C7 (amended): while scanning a question-classified paragraph's
well-formed PARA_CHAR_SHAPE record, the rewrite pass records into its
single flat `question_emphasis_char_ids` set exactly the run ids that
differ from the active question char-shape id (not from the per-record
majority base id, and not into a per-base map). -/
theorem rewrite_pass_collects_non_question_char_ids
    (texts : Nat → List Nat) (q p : Nat) (qc pc : Option Nat) (st : PassState)
    (r : HRec) (cid : Nat) (h68 : r.tag = 68)
    (hcid : st.activeCharId = some cid) (hstyle : st.activeStyleId = some q)
    (hlen : 8 ≤ r.payload.length) (hmod : r.payload.length % 8 = 0) :
    ∀ x, x ∈ (rewriteStep texts q p qc pc st r).1.emphasisIds ↔
      x ∈ st.emphasisIds ∨ (x ∈ runIds r.payload ∧ x ≠ cid) := by
  intro x
  have hn66 : r.tag ≠ 66 := by
    intro h
    rw [h] at h68
    exact absurd h68 (by decide)
  rw [rewriteStep_eq_68 texts q p qc pc st r h68 hn66, hcid]
  simp only []
  rw [if_pos ⟨hstyle, hlen, hmod⟩]
  exact mem_addEmphasisIds (runIds r.payload) st.emphasisIds cid x

/-- Witness for the amended C7 on the demonstration body. -/
theorem rewrite_pass_collects_non_question_char_ids_witness :
    (68 : Nat) = 68 ∧
    ((100 : Nat) ∈ (rewriteStep (collectParaTexts demoBody) 1 2 (some 50) (some 60)
        { initPassState with activeStyleId := some 1, activeCharId := some 50 }
        ⟨68, demoRunsPayload⟩).1.emphasisIds ↔
      (100 : Nat) ∈ ([] : List Nat) ∨
        ((100 : Nat) ∈ runIds demoRunsPayload ∧ (100 : Nat) ≠ 50)) :=
  ⟨rfl,
   rewrite_pass_collects_non_question_char_ids (collectParaTexts demoBody) 1 2
     (some 50) (some 60)
     { initPassState with activeStyleId := some 1, activeCharId := some 50 }
     ⟨68, demoRunsPayload⟩ 50 rfl rfl rfl (by decide) (by decide) 100⟩

/-- Counterexample for C7 as stated: the demonstration question
paragraph has runs `[100, 50, 100]` and question char id 50.  The
majority base id is 100, so the run id 50 differs from the base id, yet
the rewrite pass does not record it (it only records ids that differ
from the question char id 50). -/
def demoRunsPayload2 : List Nat :=
  u32le 0 ++ u32le 100 ++ u32le 8 ++ u32le 50 ++ u32le 16 ++ u32le 100

def demoBody2 : List HRec :=
  [⟨66, demoHeaderPayload⟩, ⟨67, demoQuestionTextPayload⟩, ⟨68, demoRunsPayload2⟩]

theorem rewrite_pass_collect_counterexample :
    pickBase (runIds demoRunsPayload2) = 100 ∧
    (50 : Nat) ∈ runIds demoRunsPayload2 ∧ (50 : Nat) ≠ 100 ∧
    (50 : Nat) ∉ (runRewritePass (collectParaTexts demoBody2) 1 2 (some 50) (some 60)
      initPassState demoBody2).1.emphasisIds ∧
    (runRewritePass (collectParaTexts demoBody2) 1 2 (some 50) (some 60)
      initPassState demoBody2).1.emphasisIds = [100] := by decide

/- ### Style-index-0 paragraphs in the rewrite pass (C8) -/

/-- C8 (amended): a paragraph whose text classifies to the default
style index 0 gets the passage char-shape id as its active char id
provided the question style index is nonzero; when the question style
index is 0 it gets the question char-shape id.  A following
PARA_CHAR_SHAPE record is then rewritten with that active id, exactly
as any other paragraph with the same active id would be. -/
theorem style_zero_paragraph_active_char
    (texts : Nat → List Nat) (q p : Nat) (qc pc : Option Nat) (st : PassState)
    (payload : List Nat) (hlen : 11 ≤ payload.length)
    (hcls : classifyParagraphStyle (texts st.paraIdx) q p = 0) :
    (rewriteStep texts q p qc pc st ⟨66, payload⟩).1.activeCharId =
      (if q = 0 then qc else pc) ∧
    (∀ (st2 : PassState) (cs : List Nat) (v : Nat), st2.activeCharId = some v →
      (rewriteStep texts q p qc pc st2 ⟨68, cs⟩).2.payload =
        (rewriteParaCharShapeRuns cs v).1) := by
  constructor
  · rw [rewriteStep_eq_header texts q p qc pc st ⟨66, payload⟩ ⟨rfl, hlen⟩]
    by_cases hb : (⟨66, payload⟩ : HRec).payload.getD 10 0 ≠
        classifyParagraphStyle (texts st.paraIdx) q p
    · rw [if_pos hb]
      show (if classifyParagraphStyle (texts st.paraIdx) q p = q then qc else pc) =
        if q = 0 then qc else pc
      rw [hcls]
      by_cases hq0 : q = 0
      · rw [if_pos (hq0.symm), if_pos hq0]
      · rw [if_neg (fun h => hq0 h.symm), if_neg hq0]
    · rw [if_neg hb]
      show (if classifyParagraphStyle (texts st.paraIdx) q p = q then qc else pc) =
        if q = 0 then qc else pc
      rw [hcls]
      by_cases hq0 : q = 0
      · rw [if_pos (hq0.symm), if_pos hq0]
      · rw [if_neg (fun h => hq0 h.symm), if_neg hq0]
  · intro st2 cs v hv
    rw [rewriteStep_eq_68 texts q p qc pc st2 ⟨68, cs⟩ rfl (by simp), hv]

/-- Witness for the amended C8: whitespace-only paragraph, question
index 5 (nonzero), passage index 1; the active char id is the passage
char id 60. -/
def demoWsTextPayload : List Nat := [32, 0, 32, 0, 32, 0]

def demoWsBody : List HRec :=
  [⟨66, demoHeaderPayload⟩, ⟨67, demoWsTextPayload⟩, ⟨68, u32le 0 ++ u32le 7⟩]

theorem style_zero_paragraph_active_char_witness :
    classifyParagraphStyle (collectParaTexts demoWsBody 0) 5 1 = 0 ∧
    (rewriteStep (collectParaTexts demoWsBody) 5 1 (some 50) (some 60) initPassState
      ⟨66, demoHeaderPayload⟩).1.activeCharId = some 60 :=
  ⟨by decide,
   by
    have h := (style_zero_paragraph_active_char (collectParaTexts demoWsBody) 5 1
      (some 50) (some 60) initPassState demoHeaderPayload (by decide) (by decide)).1
    rw [h]
    decide⟩

/-- Counterexample for C8 as stated: with question style index 0
(resolvable, e.g. from the numeric style name `"0"`), a whitespace-only
paragraph classifies to 0, which equals the question index, so the pass
uses the question char id 50 — its single run becomes 50, not the
passage char id 60 that a passage paragraph would get. -/
theorem style_zero_counterexample :
    classifyParagraphStyle (collectParaTexts demoWsBody 0) 0 1 = 0 ∧
    ((runRewritePass (collectParaTexts demoWsBody) 0 1 (some 50) (some 60)
        initPassState demoWsBody).2.getD 2 ⟨0, []⟩).payload =
      u32le 0 ++ u32le 50 ∧
    (rewriteParaCharShapeRuns (u32le 0 ++ u32le 7) 60).1 = u32le 0 ++ u32le 60 ∧
    u32le 0 ++ u32le 50 ≠ u32le 0 ++ u32le 60 := by decide

/- ### ID_MAPPINGS style-count patch
(`_update_id_mappings_style_count`, src/core/formatter.py lines
1157-1186, gated at lines 1134-1139 inside `_transplant_template_styles`) -/

theorem readU32le_cons4 (a b c d : Nat) (rest : List Nat) :
    readU32le (a :: b :: c :: d :: rest) = a + 256 * b + 65536 * c + 16777216 * d := by
  unfold readU32le
  simp

theorem length_setBytesAt (l : List Nat) (off : Nat) (bs : List Nat)
    (h : off + bs.length ≤ l.length) : (setBytesAt l off bs).length = l.length := by
  unfold setBytesAt
  simp only [List.length_append, List.length_take, List.length_drop]
  omega

theorem drop_setBytesAt (l : List Nat) (off : Nat) (bs : List Nat)
    (h : off ≤ l.length) :
    (setBytesAt l off bs).drop off = bs ++ l.drop (off + bs.length) := by
  unfold setBytesAt
  rw [List.append_assoc, List.drop_left' (by simp [List.length_take]; omega)]

theorem readU32le_setU32le (l : List Nat) (off v : Nat)
    (hoff : off + 4 ≤ l.length) (hv : v < 4294967296) :
    readU32le ((setU32le l off v).drop off) = v := by
  unfold setU32le
  rw [drop_setBytesAt l off (u32le v) (by omega)]
  show readU32le ((v % 256) :: (v / 256 % 256) :: (v / 65536 % 256) ::
    (v / 16777216 % 256) :: l.drop (off + (u32le v).length)) = v
  rw [readU32le_cons4]
  omega

/-- `_update_id_mappings_style_count(data, old_count, new_count)`: walk
the records; at the first ID_MAPPINGS record (tag 17), overwrite the
uint32 at payload offset 56 with the new count, but only if the field
fits in the payload and currently equals the old count; stop at that
record in every case. -/
def updateIdMappingsStyleCount : List HRec → Nat → Nat → List HRec
  | [], _, _ => []
  | r :: rs, oldCount, newCount =>
    if r.tag = 17 then
      (if 56 + 4 ≤ r.payload.length ∧ readU32le (r.payload.drop 56) = oldCount then
        (⟨r.tag, setU32le r.payload 56 newCount⟩ : HRec)
      else r) :: rs
    else r :: updateIdMappingsStyleCount rs oldCount newCount

/-- The gate inside `_transplant_template_styles`: the count field is
patched only when the template style count differs from the target
style count. -/
def styleCountPatch (doc : List HRec) (oldCount newCount : Nat) : List HRec :=
  if newCount ≠ oldCount then updateIdMappingsStyleCount doc oldCount newCount else doc

/-- The uint32 at payload offset 56 of the first ID_MAPPINGS record. -/
def idMappingsStyleCountField : List HRec → Option Nat
  | [] => none
  | r :: rs =>
    if r.tag = 17 then
      if 56 + 4 ≤ r.payload.length then some (readU32le (r.payload.drop 56)) else none
    else idMappingsStyleCountField rs

theorem idMappingsField_cons_ne (r : HRec) (rs : List HRec) (h : r.tag ≠ 17) :
    idMappingsStyleCountField (r :: rs) = idMappingsStyleCountField rs := by
  unfold idMappingsStyleCountField
  rw [if_neg h]
  cases rs with
  | nil => rfl
  | cons a l => rfl

theorem updateIdMappings_cons_ne (r : HRec) (rs : List HRec) (o n : Nat)
    (h : r.tag ≠ 17) :
    updateIdMappingsStyleCount (r :: rs) o n =
      r :: updateIdMappingsStyleCount rs o n := by
  unfold updateIdMappingsStyleCount
  rw [if_neg h]
  cases rs with
  | nil => rfl
  | cons a l => rfl

theorem update_id_mappings_field (doc : List HRec) (oldCount newCount : Nat)
    (hnew : newCount < 4294967296) :
    (idMappingsStyleCountField doc = some oldCount →
      idMappingsStyleCountField (updateIdMappingsStyleCount doc oldCount newCount) =
        some newCount) ∧
    (idMappingsStyleCountField doc ≠ some oldCount →
      updateIdMappingsStyleCount doc oldCount newCount = doc) := by
  induction doc with
  | nil =>
    refine ⟨fun h => ?_, fun _ => rfl⟩
    simp [idMappingsStyleCountField] at h
  | cons r rs ih =>
    by_cases h17 : r.tag = 17
    · constructor
      · intro hf
        unfold idMappingsStyleCountField at hf
        rw [if_pos h17] at hf
        by_cases hfit : 56 + 4 ≤ r.payload.length
        · rw [if_pos hfit] at hf
          have hread : readU32le (r.payload.drop 56) = oldCount := by
            simpa using hf
          unfold updateIdMappingsStyleCount
          rw [if_pos h17, if_pos ⟨hfit, hread⟩]
          unfold idMappingsStyleCountField
          rw [if_pos (show ((⟨r.tag, setU32le r.payload 56 newCount⟩ : HRec)).tag = 17
            from h17)]
          rw [if_pos (show 56 + 4 ≤
            ((⟨r.tag, setU32le r.payload 56 newCount⟩ : HRec)).payload.length by
            show 56 + 4 ≤ (setU32le r.payload 56 newCount).length
            unfold setU32le
            rw [length_setBytesAt r.payload 56 (u32le newCount) (by simp [u32le]; omega)]
            exact hfit)]
          rw [show ((⟨r.tag, setU32le r.payload 56 newCount⟩ : HRec)).payload =
            setU32le r.payload 56 newCount from rfl]
          rw [readU32le_setU32le r.payload 56 newCount (by omega) hnew]
        · rw [if_neg hfit] at hf
          exact absurd hf (by simp)
      · intro hf
        unfold idMappingsStyleCountField at hf
        rw [if_pos h17] at hf
        unfold updateIdMappingsStyleCount
        rw [if_pos h17]
        by_cases hfit : 56 + 4 ≤ r.payload.length
        · rw [if_pos hfit] at hf
          have hne : readU32le (r.payload.drop 56) ≠ oldCount := fun h =>
            hf (by rw [h])
          rw [if_neg (fun hc => hne hc.2)]
        · rw [if_neg (fun hc => hfit hc.1)]
    · constructor
      · intro hf
        rw [idMappingsField_cons_ne r rs h17] at hf
        rw [updateIdMappings_cons_ne r rs oldCount newCount h17,
          idMappingsField_cons_ne r _ h17]
        exact ih.1 hf
      · intro hf
        rw [idMappingsField_cons_ne r rs h17] at hf
        rw [updateIdMappings_cons_ne r rs oldCount newCount h17, ih.2 hf]

/-- C6. During the style transplant, the uint32 at payload offset 56 of
the (first) ID_MAPPINGS record is overwritten with the template style
count `T` only when `T` differs from the target style count `O` and the
field currently equals `O`; in every other case — equal counts, a
current value different from `O`, a too-short payload, or no
ID_MAPPINGS record — the DocInfo records are left byte-for-byte
unchanged. -/
theorem id_mappings_patch_only_when_matching (doc : List HRec)
    (oldCount newCount : Nat) (hnew : newCount < 4294967296) :
    (newCount = oldCount → styleCountPatch doc oldCount newCount = doc) ∧
    (newCount ≠ oldCount →
      (idMappingsStyleCountField doc = some oldCount →
        idMappingsStyleCountField (styleCountPatch doc oldCount newCount) =
          some newCount) ∧
      (idMappingsStyleCountField doc ≠ some oldCount →
        styleCountPatch doc oldCount newCount = doc)) := by
  constructor
  · intro h
    unfold styleCountPatch
    rw [if_neg (by simpa using h)]
  · intro hne
    unfold styleCountPatch
    rw [if_pos hne]
    exact update_id_mappings_field doc oldCount newCount hnew

/-- Witness for C6: a single ID_MAPPINGS record whose field holds 5 is
patched to 7 when the counts are 5 (old) and 7 (new). -/
theorem id_mappings_patch_only_when_matching_witness :
    idMappingsStyleCountField [⟨17, List.replicate 56 0 ++ u32le 5⟩] = some 5 ∧
    idMappingsStyleCountField
      (styleCountPatch [⟨17, List.replicate 56 0 ++ u32le 5⟩] 5 7) = some 7 :=
  ⟨by decide,
   ((id_mappings_patch_only_when_matching [⟨17, List.replicate 56 0 ++ u32le 5⟩] 5 7
     (by decide)).2 (by decide)).1 (by decide)⟩

/- ### The container and the engine entry points
(src/core/formatter.py lines 541-794 and 1076-1155,
src/core/hwp_controller.py lines 65-116)

A container holds the FileHeader stream (raw bytes, possibly absent)
and the named record streams.  The engine reads the FileHeader only
through its presence and the flags uint32 at offset 36; the inner
operations are therefore written over `(headerPresent, compressed,
streams)` — exactly the dependency surface of the source — and wrapped
at the container level.  Whether `_recompress_to_exact_size` succeeds
for a stream's new content against its original allocation is abstract
(`fit`); by C1 a success always has the exact original length, so the
model keeps decompressed record lists in the streams. -/

abbrev Streams := List (String × List HRec)

structure Container where
  fileHeader : Option (List Nat)
  streams : Streams
deriving DecidableEq

def lookupStream (ss : Streams) (name : String) : Option (List HRec) :=
  (ss.find? fun e => e.1 == name).map Prod.snd

/-- `ole.write_stream(name, data)`: replace the named stream's content
(all writers read the stream first, so it exists). -/
def writeStream (ss : Streams) (name : String) (v : List HRec) : Streams :=
  ss.map fun e => if e.1 == name then (e.1, v) else e

/-- The flags uint32 at FileHeader offset 36 (0 when the header is
shorter than 40 bytes or absent). -/
def headerFlags (hdr : Option (List Nat)) : Nat :=
  match hdr with
  | some h => if 40 ≤ h.length then readU32le (h.drop 36) else 0
  | none => 0

/-- Bit 0: stream compression (`flags & 0x01`). -/
def hwpCompressed (hdr : Option (List Nat)) : Bool := headerFlags hdr % 2 = 1

/-- Bit 1: document encryption (`flags & 0x02`), as `_is_hwp_encrypted`
reads it. -/
def hwpEncrypted (hdr : Option (List Nat)) : Bool := headerFlags hdr / 2 % 2 = 1

/- #### Text extraction (`_extract_from_hwp_ole`) -/

/-- UTF-16LE code units of a payload (a trailing odd byte is ignored,
as `struct`-less decoding does). -/
def utf16leUnitsAux : Nat → List Nat → List Nat
  | 0, _ => []
  | Nat.succ fuel, b0 :: b1 :: rest => (b0 + 256 * b1) :: utf16leUnitsAux fuel rest
  | Nat.succ _, _ => []

def utf16leUnits (payload : List Nat) : List Nat :=
  utf16leUnitsAux payload.length payload

/-- Numeric suffix of a `BodyText/SectionN` stream name
(`int(name.replace("Section", ""))`, 0 on failure). -/
def sectionIndex (name : String) : Nat := ((name.drop 16).toNat?).getD 0

def insertByIdx (x : String) : List String → List String
  | [] => [x]
  | y :: ys => if sectionIndex x < sectionIndex y then x :: y :: ys
    else y :: insertByIdx x ys

/-- `_list_body_sections`: the `BodyText/Section*` stream names sorted
by numeric suffix (stable insertion sort). -/
def listBodySections (ss : Streams) : List String :=
  ((ss.map Prod.fst).filter fun n => n.startsWith "BodyText/Section").foldr
    insertByIdx []

/-- `_extract_from_hwp_ole` (src/core/hwp_controller.py lines 65-96):
fail when the FileHeader stream is absent, when the document is
encrypted (bit 1 — the refusal under study), or when there is no body
section.  Past the guards the model returns each section's PARA_TEXT
payloads decoded to UTF-16 code units; the newline splitting and the
cosmetic `_clean_line` filtering that follow in the source are not
modelled (they are pure post-processing of the extracted text and touch
neither the guards nor the container). -/
def extractFromHwpOle (c : Container) : Except String (List (List Nat)) :=
  if c.fileHeader = none then Except.error "FileHeader stream missing"
  else if hwpEncrypted c.fileHeader then Except.error "file is password protected"
  else
    let sections := listBodySections c.streams
    if sections = [] then Except.error "no BodyText sections"
    else Except.ok
      (sections.flatMap fun name =>
        (((lookupStream c.streams name).getD []).filter
          fun r => r.tag = 67 ∧ r.payload ≠ []).map fun r => utf16leUnits r.payload)

/- #### DocInfo helpers of the formatter -/

def readU16le (b : List Nat) : Nat := b.headD 0 + 256 * (b.drop 1).headD 0

/-- `_parse_style_char_id(payload)`: skip the two length-prefixed
UTF-16 names, then read the uint16 at tail offset 6. -/
def parseStyleCharId (payload : List Nat) : Option Nat :=
  if payload.length < 4 then none
  else
    let localLen := readU16le payload
    let localEnd := 2 + localLen * 2
    if payload.length < localEnd + 2 then none
    else
      let engLen := readU16le (payload.drop localEnd)
      let engEnd := localEnd + 2 + engLen * 2
      let tail := payload.drop engEnd
      if tail.length < 8 then none
      else some (readU16le (tail.drop 6))

def collectStyleCharIdsAux : List HRec → Nat → List (Nat × Nat)
  | [], _ => []
  | r :: rs, idx =>
    if r.tag = 26 then
      match parseStyleCharId r.payload with
      | some cid => (idx, cid) :: collectStyleCharIdsAux rs (idx + 1)
      | none => collectStyleCharIdsAux rs (idx + 1)
    else collectStyleCharIdsAux rs idx

/-- `_collect_style_char_ids`: style index (counting STYLE records) to
char-shape id. -/
def collectStyleCharIds (doc : List HRec) (idx : Nat) : Option Nat :=
  ((collectStyleCharIdsAux doc 0).find? fun e => e.1 == idx).map Prod.snd

/-- `_collect_docinfo_charshape_face_bytes`: char-shape index (counting
CHAR_SHAPE records, short ones included) to leading 14 face bytes. -/
def collectFacesAux : List HRec → Nat → List (Nat × List Nat)
  | [], _ => []
  | r :: rs, idx =>
    if r.tag = 21 then
      if 14 ≤ r.payload.length then
        (idx, r.payload.take 14) :: collectFacesAux rs (idx + 1)
      else collectFacesAux rs (idx + 1)
    else collectFacesAux rs idx

def faceLookup (faces : List (Nat × List Nat)) (i : Nat) : Option (List Nat) :=
  (faces.find? fun e => e.1 == i).map Prod.snd

/-- The 14-byte face block of the char-shape record with the given
index (only when that record is at least 14 bytes long). -/
def nthCharShapeFace : List HRec → Nat → Option (List Nat)
  | [], _ => none
  | r :: rs, i =>
    if r.tag = 21 then
      if i = 0 then
        if 14 ≤ r.payload.length then some (r.payload.take 14) else none
      else nthCharShapeFace rs (i - 1)
    else nthCharShapeFace rs i

def applyFaceBytes (srcFace : List Nat) (targets : List Nat) :
    List HRec → Nat → List HRec × Bool
  | [], _ => ([], false)
  | r :: rs, idx =>
    if r.tag = 21 then
      let rest := applyFaceBytes srcFace targets rs (idx + 1)
      if 14 ≤ r.payload.length ∧ idx ∈ targets ∧ r.payload.take 14 ≠ srcFace then
        ((⟨r.tag, setBytesAt r.payload 0 srcFace⟩ : HRec) :: rest.1, true)
      else (r :: rest.1, rest.2)
    else
      let rest := applyFaceBytes srcFace targets rs idx
      (r :: rest.1, rest.2)

/-- `_rewrite_charshape_face_refs_in_docinfo_bytes`: copy the source
char shape's 14 face bytes onto every targeted char shape whose current
face bytes differ. -/
def rewriteCharshapeFaceBytes (doc : List HRec) (srcId : Nat) (targets : List Nat) :
    List HRec × Bool :=
  match nthCharShapeFace doc srcId with
  | none => (doc, false)
  | some srcFace => applyFaceBytes srcFace targets doc 0

/-- `_rewrite_docinfo_charshape_face_refs` over the streams. -/
def rewriteDocinfoFaceRefsCore (compressed : Bool) (fit : List HRec → Bool)
    (ss : Streams) (srcId : Nat) (targets : List Nat) : Streams × Bool :=
  let targets2 := targets.filter fun t => t ≠ srcId
  if targets2 = [] then (ss, false)
  else
    match lookupStream ss "DocInfo" with
    | none => (ss, false)
    | some doc =>
      let rewritten := rewriteCharshapeFaceBytes doc srcId targets2
      if rewritten.2 = false then (ss, false)
      else if compressed ∧ ¬fit rewritten.1 then (ss, false)
      else (writeStream ss "DocInfo" rewritten.1, true)

/- #### `_rewrite_style_ids` over the streams -/

def rewriteStyleIdsCore (hdrPresent compressed : Bool) (fit : List HRec → Bool)
    (ss : Streams) (q p : Nat) : Streams × Bool :=
  if hdrPresent = false then (ss, false)
  else
    match lookupStream ss "BodyText/Section0" with
    | none => (ss, false)
    | some body =>
      let doc := (lookupStream ss "DocInfo").getD []
      let texts := collectParaTexts body
      let qCid := collectStyleCharIds doc q
      let pCid := collectStyleCharIds doc p
      let res := runRewritePass texts q p qCid pCid initPassState body
      if res.1.changed = false then
        if qCid ≠ none ∧ res.1.emphasisIds ≠ [] then
          ((rewriteDocinfoFaceRefsCore compressed fit ss (qCid.getD 0)
            res.1.emphasisIds).1, true)
        else (ss, true)
      else if compressed ∧ ¬fit res.2 then (ss, false)
      else
        let ss1 := writeStream ss "BodyText/Section0" res.2
        if qCid ≠ none ∧ res.1.emphasisIds ≠ [] then
          ((rewriteDocinfoFaceRefsCore compressed fit ss1 (qCid.getD 0)
            res.1.emphasisIds).1, true)
        else (ss1, true)

/- #### `_transplant_template_styles` over the streams -/

/-- The record-level splice of the transplant: replace the span from
the first through the last STYLE record of the target DocInfo with the
template's STYLE records, then patch the ID_MAPPINGS style count when
the counts differ. -/
def transplantDocinfo (tDoc oDoc : List HRec) : Option (List HRec) :=
  let tStyles := tDoc.filter fun r => r.tag = 26
  if tStyles.length = 0 then none
  else
    let oCount := (oDoc.filter fun r => r.tag = 26).length
    if oCount = 0 then none
    else
      let pre := oDoc.takeWhile fun r => r.tag ≠ 26
      let post := (oDoc.reverse.takeWhile fun r => r.tag ≠ 26).reverse
      some (styleCountPatch (pre ++ tStyles ++ post) oCount tStyles.length)

def transplantTemplateStylesCore (hdrPresent compressed : Bool)
    (fit : List HRec → Bool) (ss : Streams) (template : Option Container) :
    Streams × Bool :=
  match template with
  | none => (ss, false)
  | some t =>
    if t.fileHeader = none then (ss, false)
    else
      match lookupStream t.streams "DocInfo" with
      | none => (ss, false)
      | some tDoc =>
        if hdrPresent = false then (ss, false)
        else
          match lookupStream ss "DocInfo" with
          | none => (ss, false)
          | some oDoc =>
            match transplantDocinfo tDoc oDoc with
            | none => (ss, false)
            | some newDoc =>
              if compressed ∧ ¬fit newDoc then (ss, false)
              else (writeStream ss "DocInfo" newDoc, true)

/- #### `post_process_question_emphasis_faces` over the streams -/

def addMismatch (m : List (Nat × List Nat)) (base cid : Nat) : List (Nat × List Nat) :=
  if (m.find? fun e => e.1 == base).isSome then
    m.map fun e => if e.1 == base then (e.1, insertIdOnce e.2 cid) else e
  else m ++ [(base, [cid])]

/-- `_collect_question_charshape_mismatch_ids`: for every
question-looking paragraph (regex match on the stripped text) with a
multi-run PARA_CHAR_SHAPE record, map the majority base id to the set
of deviating run ids. -/
def collectQuestionMismatchAux (texts : Nat → List Nat) :
    List HRec → Nat → Bool → List (Nat × List Nat) → List (Nat × List Nat)
  | [], _, _, acc => acc
  | r :: rs, paraIdx, activeQ, acc =>
    if r.tag = 66 then
      collectQuestionMismatchAux texts rs (paraIdx + 1)
        (questionNumberMatch ((pyStrip (texts paraIdx)).dropWhile isNoiseChar)) acc
    else if r.tag = 68 ∧ activeQ = true ∧ 16 ≤ r.payload.length ∧
        r.payload.length % 8 = 0 then
      let ids := runIds r.payload
      let base := pickBase ids
      collectQuestionMismatchAux texts rs paraIdx activeQ
        (ids.foldl (fun m cid => if cid ≠ base then addMismatch m base cid else m) acc)
    else collectQuestionMismatchAux texts rs paraIdx activeQ acc

def collectQuestionMismatch (body : List HRec) : List (Nat × List Nat) :=
  collectQuestionMismatchAux (collectParaTexts body) body 0 false []

def faceUpdate (faces : List (Nat × List Nat)) (ks : List Nat) (v : List Nat) :
    List (Nat × List Nat) :=
  faces.map fun e => if e.1 ∈ ks then (e.1, v) else e

/-- One entry of the reconciliation loop of
`post_process_question_emphasis_faces`: state is the DocInfo records,
the face map and the changed flag. -/
def emphasisLoopStep (st : List HRec × List (Nat × List Nat) × Bool)
    (entry : Nat × List Nat) : List HRec × List (Nat × List Nat) × Bool :=
  match faceLookup st.2.1 entry.1 with
  | none => st
  | some srcFace =>
    if srcFace = List.replicate 14 0 then st
    else
      let targets := entry.2.filter fun cid =>
        cid ≠ entry.1 ∧ faceLookup st.2.1 cid = some (List.replicate 14 0)
      if targets = [] then st
      else
        let rewritten := rewriteCharshapeFaceBytes st.1 entry.1 targets
        (rewritten.1,
         if rewritten.2 then faceUpdate st.2.1 targets srcFace else st.2.1,
         st.2.2 || rewritten.2)

def postProcessEmphasisFacesCore (hdrPresent compressed : Bool)
    (fit : List HRec → Bool) (ss : Streams) : Streams × Bool :=
  if hdrPresent = false ∨ lookupStream ss "BodyText/Section0" = none ∨
      lookupStream ss "DocInfo" = none then (ss, false)
  else
    let body := (lookupStream ss "BodyText/Section0").getD []
    let doc := (lookupStream ss "DocInfo").getD []
    let s2t := collectQuestionMismatch body
    if s2t = [] then (ss, false)
    else
      let faces := collectFacesAux doc 0
      if faces = [] then (ss, false)
      else
        let looped := s2t.foldl emphasisLoopStep (doc, faces, false)
        if looped.2.2 = false then (ss, false)
        else if compressed ∧ ¬fit looped.1 then (ss, false)
        else (writeStream ss "DocInfo" looped.1, true)

/- #### `post_process_style_ids` over the streams -/

def postProcessStyleIdsCore (hdrPresent compressed : Bool)
    (fit : List HRec → Bool) (ss : Streams) (template : Option Container)
    (qOpt pOpt : Option Nat) : Streams × Bool :=
  match qOpt, pOpt with
  | none, none => postProcessEmphasisFacesCore hdrPresent compressed fit ss
  | _, _ =>
    let q := qOpt.getD (pOpt.getD 0)
    let p := pOpt.getD (qOpt.getD 0)
    let ss1 := (transplantTemplateStylesCore hdrPresent compressed fit ss template).1
    let res := rewriteStyleIdsCore hdrPresent compressed fit ss1 q p
    let ss3 := (postProcessEmphasisFacesCore hdrPresent compressed fit res.1).1
    (ss3, res.2)

/- #### Container-level entry points -/

def postProcessStyleIdsOp (c : Container) (template : Option Container)
    (qOpt pOpt : Option Nat) (fit : List HRec → Bool) : Container × Bool :=
  let r := postProcessStyleIdsCore c.fileHeader.isSome (hwpCompressed c.fileHeader)
    fit c.streams template qOpt pOpt
  ({ c with streams := r.1 }, r.2)

def postProcessEmphasisFacesOp (c : Container) (fit : List HRec → Bool) :
    Container × Bool :=
  let r := postProcessEmphasisFacesCore c.fileHeader.isSome
    (hwpCompressed c.fileHeader) fit c.streams
  ({ c with streams := r.1 }, r.2)

/- ### Frame property of the entry points (C10) -/

theorem lookupStream_writeStream_ne (ss : Streams) (n1 n2 : String) (v : List HRec)
    (h : n2 ≠ n1) : lookupStream (writeStream ss n1 v) n2 = lookupStream ss n2 := by
  unfold lookupStream writeStream
  induction ss with
  | nil => rfl
  | cons e es ih =>
    simp only [List.map_cons]
    by_cases he1 : e.1 = n1
    · have hne2 : (e.1 == n2) = false := by
        simp only [beq_eq_false_iff_ne, ne_eq]
        rw [he1]
        exact fun hh => h hh.symm
      rw [if_pos (by simpa using he1)]
      rw [List.find?_cons_of_neg _ (by simp [hne2]),
        List.find?_cons_of_neg _ (by simp [hne2])]
      exact ih
    · rw [if_neg (by simpa using he1)]
      by_cases he2 : e.1 = n2
      · rw [List.find?_cons_of_pos _ (by simpa using he2),
          List.find?_cons_of_pos _ (by simpa using he2)]
      · rw [List.find?_cons_of_neg _ (by simpa using he2),
          List.find?_cons_of_neg _ (by simpa using he2)]
        exact ih

theorem rewriteDocinfoFaceRefsCore_frame (compressed : Bool) (fit : List HRec → Bool)
    (ss : Streams) (srcId : Nat) (targets : List Nat) (name : String)
    (hd : name ≠ "DocInfo") :
    lookupStream (rewriteDocinfoFaceRefsCore compressed fit ss srcId targets).1 name =
      lookupStream ss name := by
  simp only [rewriteDocinfoFaceRefsCore]
  split
  · rfl
  · split
    · rfl
    · split
      · rfl
      · split
        · rfl
        · exact lookupStream_writeStream_ne ss "DocInfo" name _ hd

theorem rewriteStyleIdsCore_frame (hdrPresent compressed : Bool)
    (fit : List HRec → Bool) (ss : Streams) (q p : Nat) (name : String)
    (hb : name ≠ "BodyText/Section0") (hd : name ≠ "DocInfo") :
    lookupStream (rewriteStyleIdsCore hdrPresent compressed fit ss q p).1 name =
      lookupStream ss name := by
  simp only [rewriteStyleIdsCore]
  split
  · rfl
  · split
    · rfl
    · split
      · split
        · exact rewriteDocinfoFaceRefsCore_frame _ _ _ _ _ _ hd
        · rfl
      · split
        · rfl
        · split
          · rw [rewriteDocinfoFaceRefsCore_frame _ _ _ _ _ _ hd]
            exact lookupStream_writeStream_ne ss "BodyText/Section0" name _ hb
          · exact lookupStream_writeStream_ne ss "BodyText/Section0" name _ hb

theorem transplantTemplateStylesCore_frame (hdrPresent compressed : Bool)
    (fit : List HRec → Bool) (ss : Streams) (template : Option Container)
    (name : String) (hd : name ≠ "DocInfo") :
    lookupStream
        (transplantTemplateStylesCore hdrPresent compressed fit ss template).1 name =
      lookupStream ss name := by
  simp only [transplantTemplateStylesCore]
  split
  · rfl
  · split
    · rfl
    · split
      · rfl
      · split
        · rfl
        · split
          · rfl
          · split
            · rfl
            · split
              · rfl
              · exact lookupStream_writeStream_ne ss "DocInfo" name _ hd

theorem postProcessEmphasisFacesCore_frame (hdrPresent compressed : Bool)
    (fit : List HRec → Bool) (ss : Streams) (name : String)
    (hd : name ≠ "DocInfo") :
    lookupStream (postProcessEmphasisFacesCore hdrPresent compressed fit ss).1 name =
      lookupStream ss name := by
  simp only [postProcessEmphasisFacesCore]
  split
  · rfl
  · split
    · rfl
    · split
      · rfl
      · split
        · rfl
        · split
          · rfl
          · exact lookupStream_writeStream_ne ss "DocInfo" name _ hd

/-- C10. `postProcessStyleIds` and `postProcessEmphasisFaces` write at
most the streams `BodyText/Section0` and `DocInfo`: the FileHeader and
every other stream of the container are returned untouched by every
code path (under every recompression outcome and template). -/
theorem post_process_writes_at_most_body_and_docinfo (c : Container)
    (template : Option Container) (qOpt pOpt : Option Nat)
    (fit : List HRec → Bool) (name : String)
    (hb : name ≠ "BodyText/Section0") (hd : name ≠ "DocInfo") :
    lookupStream (postProcessStyleIdsOp c template qOpt pOpt fit).1.streams name =
      lookupStream c.streams name ∧
    (postProcessStyleIdsOp c template qOpt pOpt fit).1.fileHeader = c.fileHeader ∧
    lookupStream (postProcessEmphasisFacesOp c fit).1.streams name =
      lookupStream c.streams name ∧
    (postProcessEmphasisFacesOp c fit).1.fileHeader = c.fileHeader := by
  refine ⟨?_, rfl, ?_, rfl⟩
  · show lookupStream (postProcessStyleIdsCore c.fileHeader.isSome
      (hwpCompressed c.fileHeader) fit c.streams template qOpt pOpt).1 name =
      lookupStream c.streams name
    unfold postProcessStyleIdsCore
    split
    · exact postProcessEmphasisFacesCore_frame _ _ _ _ _ hd
    · simp only []
      rw [postProcessEmphasisFacesCore_frame _ _ _ _ _ hd,
        rewriteStyleIdsCore_frame _ _ _ _ _ _ _ hb hd,
        transplantTemplateStylesCore_frame _ _ _ _ _ _ hd]
  · exact postProcessEmphasisFacesCore_frame _ _ _ _ _ hd

/-- Witness for C10 on a concrete container with an extra stream. -/
theorem post_process_writes_at_most_body_and_docinfo_witness :
    lookupStream (postProcessStyleIdsOp
        ⟨some (List.replicate 36 0 ++ u32le 0),
         [("BodyText/Section0", [⟨66, demoHeaderPayload⟩]), ("DocInfo", []),
          ("Extra", [⟨1, [7]⟩])]⟩
        none (some 3) (some 4) (fun _ => true)).1.streams "Extra" =
      some [⟨1, [7]⟩] :=
  ((post_process_writes_at_most_body_and_docinfo
      ⟨some (List.replicate 36 0 ++ u32le 0),
       [("BodyText/Section0", [⟨66, demoHeaderPayload⟩]), ("DocInfo", []),
        ("Extra", [⟨1, [7]⟩])]⟩
      none (some 3) (some 4) (fun _ => true) "Extra" (by decide) (by decide)).1).trans
    (by decide)

/- ### Encrypted documents (C4) -/

/-- A concrete encrypted (bit 1 set), uncompressed container with a
question paragraph whose style byte needs fixing. -/
def demoEncContainer : Container :=
  ⟨some (List.replicate 36 0 ++ u32le 2),
   [("BodyText/Section0", [⟨66, demoHeaderPayload⟩, ⟨67, demoQuestionTextPayload⟩]),
    ("DocInfo", [])]⟩

/-- Counterexample for C4 as stated: the demonstration container is
encrypted, yet `postProcessStyleIds` reports success and rewrites the
`BodyText/Section0` stream — the formatter never consults the
encryption bit. -/
theorem encrypted_not_refused_counterexample :
    hwpEncrypted demoEncContainer.fileHeader = true ∧
    (postProcessStyleIdsOp demoEncContainer none (some 3) (some 4)
      (fun _ => true)).2 = true ∧
    lookupStream (postProcessStyleIdsOp demoEncContainer none (some 3) (some 4)
        (fun _ => true)).1.streams "BodyText/Section0" ≠
      lookupStream demoEncContainer.streams "BodyText/Section0" := by decide

/-- C4 (amended). Text extraction refuses an encrypted document (it
raises before reading any body section); the two post-processing entry
points do not consult the encryption bit at all: their result streams
and returned flag depend on the FileHeader only through its presence
and the compression bit, so an encrypted document is processed — and
possibly modified — exactly like the same document with the encryption
bit cleared. -/
theorem encrypted_document_handling (c : Container) (hdr2 : Option (List Nat))
    (hpres : hdr2.isSome = c.fileHeader.isSome)
    (hcomp : hwpCompressed hdr2 = hwpCompressed c.fileHeader)
    (template : Option Container) (qOpt pOpt : Option Nat) (fit : List HRec → Bool)
    (henc : hwpEncrypted c.fileHeader = true) :
    (∃ e, extractFromHwpOle c = Except.error e) ∧
    (postProcessStyleIdsOp ⟨hdr2, c.streams⟩ template qOpt pOpt fit).1.streams =
      (postProcessStyleIdsOp c template qOpt pOpt fit).1.streams ∧
    (postProcessStyleIdsOp ⟨hdr2, c.streams⟩ template qOpt pOpt fit).2 =
      (postProcessStyleIdsOp c template qOpt pOpt fit).2 ∧
    (postProcessEmphasisFacesOp ⟨hdr2, c.streams⟩ fit).1.streams =
      (postProcessEmphasisFacesOp c fit).1.streams ∧
    (postProcessEmphasisFacesOp ⟨hdr2, c.streams⟩ fit).2 =
      (postProcessEmphasisFacesOp c fit).2 := by
  have hsome : ¬c.fileHeader = none := by
    intro h
    rw [h] at henc
    simp [hwpEncrypted, headerFlags] at henc
  refine ⟨?_, ?_, ?_, ?_, ?_⟩
  · unfold extractFromHwpOle
    rw [if_neg hsome, if_pos henc]
    exact ⟨_, rfl⟩
  · simp only [postProcessStyleIdsOp]
    show (postProcessStyleIdsCore hdr2.isSome (hwpCompressed hdr2) fit
      c.streams template qOpt pOpt).1 = _
    rw [hpres, hcomp]
  · simp only [postProcessStyleIdsOp]
    show (postProcessStyleIdsCore hdr2.isSome (hwpCompressed hdr2) fit
      c.streams template qOpt pOpt).2 = _
    rw [hpres, hcomp]
  · simp only [postProcessEmphasisFacesOp]
    show (postProcessEmphasisFacesCore hdr2.isSome (hwpCompressed hdr2) fit
      c.streams).1 = _
    rw [hpres, hcomp]
  · simp only [postProcessEmphasisFacesOp]
    show (postProcessEmphasisFacesCore hdr2.isSome (hwpCompressed hdr2) fit
      c.streams).2 = _
    rw [hpres, hcomp]

/-- Witness for the amended C4: the encrypted demonstration container
against itself with the encryption bit cleared. -/
theorem encrypted_document_handling_witness :
    (∃ e, extractFromHwpOle demoEncContainer = Except.error e) ∧
    (postProcessStyleIdsOp
        ⟨some (List.replicate 36 0 ++ u32le 0), demoEncContainer.streams⟩
        none (some 3) (some 4) (fun _ => true)).1.streams =
      (postProcessStyleIdsOp demoEncContainer none (some 3) (some 4)
        (fun _ => true)).1.streams :=
  let h := encrypted_document_handling demoEncContainer
    (some (List.replicate 36 0 ++ u32le 0)) (by decide) (by decide)
    none (some 3) (some 4) (fun _ => true) (by decide)
  ⟨h.1, h.2.1⟩

end HwpExam
